import Mathlib

/-!
Verification of the Flow Sketch-plugin extraction and publish subsystems.

The definitions below are a shallow embedding of the plugin source:
- the document extraction engine (extractLayerTree, extractLayer, extractStyle,
  walkFlows, extractFlows, countFlows, findLayerById, extractArtboardData);
- the publish orchestrator queue/skip-set computation and its concurrency
  semaphore;
- the webview request correlator (bridge.ts);
- the token-upload tail of the publish pipeline.

JavaScript objects of the host document are modelled as inductive data.
A field that the host may leave undefined is an Option; JavaScript string
truthiness (undefined and the empty string are falsy) is modelled explicitly.
An undefined child-layer array and an empty one are observationally identical
in every function embedded here, so node children are a plain list.
-/

/-- JS Math.round: round half toward positive infinity. -/
def jsRound (x : Rat) : Int := Int.floor (x + 1/2)

/-- Math.round(v * 100) / 100, the two-decimal rounding used for frames. -/
def round2 (x : Rat) : Rat := (jsRound (x * 100) : Rat) / 100

/-- Truthiness of a JS string-or-undefined value: undefined and "" are falsy. -/
def strTruthy : Option String → Bool
  | none => false
  | some s => s ≠ ""

/-- JS (a || d) for a string-or-undefined a and a string default d. -/
def jsStrDefault (a : Option String) (d : String) : String :=
  match a with
  | some s => if s = "" then d else s
  | none => d

/-- JS (a || b) where both sides are string-or-null values. -/
def jsStrOr (a b : Option String) : Option String :=
  if strTruthy a then a else b

-- ─── Host document model (Sketch side) ──────────────────────────────

structure SkFrame where
  x : Rat
  y : Rat
  width : Rat
  height : Rat
deriving DecidableEq, Repr

structure StopSrc where
  position : Rat
  color : String
deriving DecidableEq, Repr

structure GradientSrc where
  gradientType : String
  fromPoint : String
  toPoint : String
  stops : List StopSrc
deriving DecidableEq, Repr

structure FillSrc where
  enabled : Bool
  color : String
  fillType : String
  gradient : Option GradientSrc
deriving DecidableEq, Repr

structure BorderSrc where
  enabled : Bool
  color : String
  thickness : Rat
  position : String
  fillType : String
deriving DecidableEq, Repr

structure ShadowSrc where
  enabled : Bool
  color : String
  x : Rat
  y : Rat
  blur : Rat
  spread : Rat
deriving DecidableEq, Repr

structure BlurSrc where
  enabled : Bool
  blurType : String
  radius : Rat
deriving DecidableEq, Repr

structure BorderOptsSrc where
  dashPattern : List Rat
  lineEnd : String
  lineJoin : String
deriving DecidableEq, Repr

structure ExportFormatSrc where
  fileFormat : String
  prefixStr : Option String
  suffixStr : Option String
  size : String
deriving DecidableEq, Repr

structure OverrideSrc where
  id : String
  path : String
  property : String
  value : String
  isDefault : Bool
deriving DecidableEq, Repr

/-- The value of layer.flow.target: the BackTarget sentinel or a concrete
target node reference carrying id and name. -/
inductive FlowTargetRef where
  | back
  | toNode (id : String) (name : String)
deriving DecidableEq, Repr

/-- The layer.flow annotation object. -/
structure FlowAttr where
  target : Option FlowTargetRef
  targetId : Option String
  animationType : Option String
  isBackAction : Bool
deriving DecidableEq, Repr

/-- The host style object, including the text attributes read by
extractTextStyle. Every field may be undefined on the host. -/
structure NodeStyle where
  opacity : Option Rat
  blendingMode : Option String
  fills : Option (List FillSrc)
  borders : Option (List BorderSrc)
  shadows : Option (List ShadowSrc)
  innerShadows : Option (List ShadowSrc)
  blur : Option BlurSrc
  borderOpts : Option BorderOptsSrc
  fontFamily : Option String
  fontSize : Option Rat
  fontWeight : Option Rat
  fontStyle : Option String
  textColor : Option String
  lineHeight : Option Rat
  kerning : Option Rat
  alignment : Option String
  textTransform : Option String
  textDecoration : Option String
  paragraphSpacing : Option Rat
deriving DecidableEq, Repr

/-- Non-recursive fields of a host layer node. -/
structure SkNodeData where
  id : String
  name : String
  type : String
  hidden : Bool
  locked : Bool
  frame : SkFrame
  transformRotation : Option Rat
  style : Option NodeStyle
  flow : Option FlowAttr
  text : Option String
  exportFormats : List ExportFormatSrc
  symbolId : Option String
  overrides : List OverrideSrc
deriving DecidableEq, Repr

/-- A host layer node: its scalar data plus its (possibly empty) child list. -/
inductive SkNode where
  | node (data : SkNodeData) (layers : List SkNode)

def SkNode.nodeData : SkNode → SkNodeData
  | .node d _ => d

def SkNode.layers : SkNode → List SkNode
  | .node _ ls => ls

def SkNode.id (n : SkNode) : String := n.nodeData.id

def SkNode.name (n : SkNode) : String := n.nodeData.name

def SkNode.type (n : SkNode) : String := n.nodeData.type

def SkNode.hidden (n : SkNode) : Bool := n.nodeData.hidden

def SkNode.flow (n : SkNode) : Option FlowAttr := n.nodeData.flow

structure SkPage where
  name : String
  layers : List SkNode

structure SkDocument where
  docId : String
  pages : List SkPage

-- ─── Extracted (wire) data model ────────────────────────────────────

structure OutFrame where
  x : Rat
  y : Rat
  width : Rat
  height : Rat
deriving DecidableEq, Repr

structure FlowSummaryOut where
  targetId : Option String
  targetName : Option String
  animationType : String
  isBackAction : Bool
deriving DecidableEq, Repr

structure StopOut where
  position : Rat
  color : String
deriving DecidableEq, Repr

structure GradientOut where
  gradientType : String
  fromPoint : String
  toPoint : String
  stops : List StopOut
deriving DecidableEq, Repr

structure FillOut where
  color : String
  fillType : String
  gradient : Option GradientOut
deriving DecidableEq, Repr

structure BorderOut where
  color : String
  thickness : Rat
  position : String
  fillType : String
deriving DecidableEq, Repr

structure ShadowOut where
  color : String
  x : Rat
  y : Rat
  blur : Rat
  spread : Rat
deriving DecidableEq, Repr

structure BlurOut where
  blurType : String
  radius : Rat
deriving DecidableEq, Repr

structure BorderOptsOut where
  dashPattern : List Rat
  lineEnd : String
  lineJoin : String
deriving DecidableEq, Repr

/-- The serialized Style object built by extractStyle. A field of type
Option (List _) records JS object-field presence: some xs means the field was
assigned the array xs, none would mean the field is absent from the object. -/
structure StyleOut where
  opacity : Rat
  blendingMode : String
  fills : Option (List FillOut)
  borders : Option (List BorderOut)
  shadows : Option (List ShadowOut)
  innerShadows : Option (List ShadowOut)
  blur : Option BlurOut
  borderOpts : Option BorderOptsOut
deriving DecidableEq, Repr

structure TextStyleOut where
  fontFamily : Option String
  fontSize : Option Rat
  fontWeight : Option Rat
  fontStyle : Option String
  textColor : Option String
  lineHeight : Option Rat
  letterSpacing : Option Rat
  textAlignment : Option String
  textTransform : String
  textDecoration : String
  paragraphSpacing : Rat
deriving DecidableEq, Repr

structure ExportFormatOut where
  fileFormat : String
  prefixStr : Option String
  suffixStr : Option String
  size : String
deriving DecidableEq, Repr

structure OverrideOut where
  id : String
  path : String
  property : String
  value : String
  isDefault : Bool
deriving DecidableEq, Repr

/-- Non-recursive fields of a serialized Layer Node. -/
structure LayerCore where
  id : String
  name : String
  type : String
  frame : OutFrame
  isVisible : Bool
  isLocked : Bool
  opacity : Rat
  rotation : Rat
  style : Option StyleOut
  exportFormats : List ExportFormatOut
  text : Option String
  textStyle : Option TextStyleOut
  symbolId : Option String
  overrides : Option (List OverrideOut)
  flow : Option FlowSummaryOut
deriving DecidableEq, Repr

/-- A serialized Layer Node. The children field records JS presence:
none means the children key is absent, some cs means it was assigned cs. -/
inductive LayerData where
  | mk (core : LayerCore) (children : Option (List LayerData))

def LayerData.core : LayerData → LayerCore
  | .mk c _ => c

def LayerData.children : LayerData → Option (List LayerData)
  | .mk _ cs => cs

def LayerData.id (d : LayerData) : String := d.core.id

def LayerData.name (d : LayerData) : String := d.core.name

/-- A prototype flow edge as pushed by walkFlows. -/
structure FlowData where
  sourceLayerId : String
  sourceLayerName : String
  sourceRect : OutFrame
  targetArtboardId : String
  targetArtboardName : Option String
  animationType : String
  isBackAction : Bool
deriving DecidableEq, Repr

structure ArtboardData where
  artboardId : String
  layers : List LayerData
  flows : List FlowData
  flowCount : Nat

-- ─── Style extraction (source part_003 lines 328-490) ───────────────

/-- extractFills: keep enabled entries, mapping gradients with their stops. -/
def extractFills : List FillSrc → List FillOut
  | [] => []
  | f :: rest =>
    if !f.enabled then extractFills rest
    else
      { color := f.color, fillType := f.fillType,
        gradient :=
          match f.gradient with
          | some g =>
            some { gradientType := g.gradientType, fromPoint := g.fromPoint,
                   toPoint := g.toPoint,
                   stops := g.stops.map (fun s => { position := s.position, color := s.color }) }
          | none => none } :: extractFills rest

/-- extractBorders: keep enabled entries. -/
def extractBorders : List BorderSrc → List BorderOut
  | [] => []
  | b :: rest =>
    if !b.enabled then extractBorders rest
    else
      { color := b.color, thickness := b.thickness, position := b.position,
        fillType := b.fillType } :: extractBorders rest

/-- extractShadows: keep enabled entries (shared for shadows and innerShadows). -/
def extractShadows : List ShadowSrc → List ShadowOut
  | [] => []
  | s :: rest =>
    if !s.enabled then extractShadows rest
    else
      { color := s.color, x := s.x, y := s.y, blur := s.blur,
        spread := s.spread } :: extractShadows rest

/-- extractStyle: returns null when the layer has no style; otherwise builds
the Style object, always assigning the four collection fields (empty input
collections become empty arrays, mirroring the hasX ? extract : [] pattern). -/
def extractStyle (layer : SkNodeData) : Option StyleOut :=
  match layer.style with
  | none => none
  | some style =>
    some
      { opacity := style.opacity.getD 1
        blendingMode := style.blendingMode.getD "Normal"
        fills :=
          some (match style.fills with
            | some fs => if fs.length > 0 then extractFills fs else []
            | none => [])
        borders :=
          some (match style.borders with
            | some bs => if bs.length > 0 then extractBorders bs else []
            | none => [])
        shadows :=
          some (match style.shadows with
            | some ss => if ss.length > 0 then extractShadows ss else []
            | none => [])
        innerShadows :=
          some (match style.innerShadows with
            | some ss => if ss.length > 0 then extractShadows ss else []
            | none => [])
        blur :=
          (match style.blur with
            | some b =>
              if b.enabled then some { blurType := b.blurType, radius := b.radius } else none
            | none => none)
        borderOpts :=
          (match style.borders with
            | some bs =>
              if bs.length > 0 then
                style.borderOpts.map (fun bo =>
                  { dashPattern := bo.dashPattern, lineEnd := bo.lineEnd,
                    lineJoin := bo.lineJoin })
              else none
            | none => none) }

/-- extractTextStyle: null when the layer has no style; safeGet degrades each
unavailable attribute to its fallback instead of raising. -/
def extractTextStyle (textLayer : SkNodeData) : Option TextStyleOut :=
  match textLayer.style with
  | none => none
  | some style =>
    some
      { fontFamily := style.fontFamily
        fontSize := style.fontSize
        fontWeight := style.fontWeight
        fontStyle := style.fontStyle
        textColor := style.textColor
        lineHeight := style.lineHeight
        letterSpacing := style.kerning
        textAlignment := style.alignment
        textTransform := style.textTransform.getD "none"
        textDecoration := style.textDecoration.getD "none"
        paragraphSpacing := style.paragraphSpacing.getD 0 }

/-- extractExportFormats: map the export formats when present, else []. -/
def extractExportFormats (layer : SkNodeData) : List ExportFormatOut :=
  if layer.exportFormats.length > 0 then
    layer.exportFormats.map (fun f =>
      { fileFormat := f.fileFormat, prefixStr := f.prefixStr,
        suffixStr := f.suffixStr, size := f.size })
  else []

/-- extractOverrides: drop default overrides, keep the delta-carrying ones. -/
def extractOverrides (symbolInstance : SkNodeData) : List OverrideOut :=
  (symbolInstance.overrides.filter (fun o => !o.isDefault)).map (fun o =>
    { id := o.id, path := o.path, property := o.property, value := o.value,
      isDefault := false })

-- ─── Layer tree extraction (source part_003 lines 265-324) ──────────

/-- The flow summary attached by extractLayer (lines 309-317). -/
def extractLayerFlow (flow : FlowAttr) : FlowSummaryOut :=
  { targetId :=
      jsStrOr flow.targetId
        (match flow.target with
          | some (.toNode i _) => some i
          | some .back => none
          | none => none)
    targetName :=
      (match flow.target with
        | some (.toNode _ nm) => some nm
        | some .back => none
        | none => none)
    animationType := jsStrDefault flow.animationType "none"
    isBackAction := flow.isBackAction }

mutual

/-- extractLayer: serialize one (non-hidden) layer; children are assigned
only when the layer has a non-empty child array. -/
def extractLayer : SkNode → LayerData
  | .node d ls =>
    LayerData.mk
      { id := d.id
        name := d.name
        type := d.type
        frame :=
          { x := round2 d.frame.x, y := round2 d.frame.y,
            width := round2 d.frame.width, height := round2 d.frame.height }
        isVisible := true
        isLocked := d.locked
        opacity :=
          (match d.style with
            | some st => st.opacity.getD 1
            | none => 1)
        rotation := d.transformRotation.getD 0
        style :=
          (match d.style with
            | some _ => extractStyle d
            | none => none)
        exportFormats := extractExportFormats d
        text := if d.type = "Text" then d.text else none
        textStyle := if d.type = "Text" then extractTextStyle d else none
        symbolId := if d.type = "SymbolInstance" then d.symbolId else none
        overrides := if d.type = "SymbolInstance" then some (extractOverrides d) else none
        flow := d.flow.map extractLayerFlow }
      (match ls with
        | [] => none
        | _ => some (extractLayerChildren ls))

/-- The loop body of extractLayerTree: skip hidden children, serialize the
rest in order. -/
def extractLayerChildren : List SkNode → List LayerData
  | [] => []
  | layer :: rest =>
    if layer.hidden then extractLayerChildren rest
    else extractLayer layer :: extractLayerChildren rest

end

/-- extractLayerTree: serialize the non-hidden children of a parent node. -/
def extractLayerTree (parent : SkNode) : List LayerData :=
  extractLayerChildren parent.layers

-- ─── Prototype flow extraction (source part_003 lines 494-575) ──────

/-- getAbsoluteFrame: start from the layer frame and add the x/y offsets of
every ancestor up to, but excluding, the first Artboard/SymbolMaster.
The ancestors list plays the role of the parent chain, nearest parent first. -/
def absWalk : Rat → Rat → List SkNode → Rat × Rat
  | x, y, [] => (x, y)
  | x, y, .node pd _ :: rest =>
    if pd.type ≠ "Artboard" ∧ pd.type ≠ "SymbolMaster" then
      absWalk (x + pd.frame.x) (y + pd.frame.y) rest
    else (x, y)

def getAbsoluteFrame (layer : SkNodeData) (ancestors : List SkNode) : OutFrame :=
  let p := absWalk layer.frame.x layer.frame.y ancestors
  { x := round2 p.1, y := round2 p.2,
    width := round2 layer.frame.width, height := round2 layer.frame.height }

/-- The isBack test of walkFlows (line 507): the target is absent or the
BackTarget sentinel. -/
def flowIsBack (flow : FlowAttr) : Bool :=
  match flow.target with
  | none => true
  | some .back => true
  | some (.toNode _ _) => false

/-- The targetId/targetName resolution of walkFlows (lines 509-519). -/
def flowTidName (flow : FlowAttr) : Option String × Option String :=
  if flowIsBack flow then (none, none)
  else
    match flow.target with
    | some (.toNode i nm) =>
      if i ≠ "" then (some i, if nm ≠ "" then some nm else none)
      else if strTruthy flow.targetId then (flow.targetId, none)
      else (none, none)
    | _ =>
      if strTruthy flow.targetId then (flow.targetId, none) else (none, none)

/-- The flow-handling body of walkFlows (lines 504-533), factored out: push
one edge onto the flows accumulator for a layer whose flow resolves (back
sentinel, absent target, truthy concrete target id, or truthy flow.targetId);
otherwise leave the accumulator unchanged. -/
def walkFlowsPush (d : SkNodeData) (ancestors : List SkNode) (flows : List FlowData) :
    List FlowData :=
  match d.flow with
  | none => flows
  | some flow =>
    if (flowTidName flow).1.isSome || flowIsBack flow then
      flows ++
        [{ sourceLayerId := d.id
           sourceLayerName := d.name
           sourceRect := getAbsoluteFrame d ancestors
           targetArtboardId := if flowIsBack flow then "__back__" else (flowTidName flow).1.getD ""
           targetArtboardName := (flowTidName flow).2
           animationType := jsStrDefault flow.animationType "none"
           isBackAction := flowIsBack flow }]
    else flows

mutual

/-- walkFlows: skip hidden layers entirely; handle the flow annotation of the
layer itself, then recurse into the children. flows is the accumulator (the
JS array that edges are pushed onto); ancestors is the parent chain. -/
def walkFlows : SkNode → List SkNode → List FlowData → List FlowData
  | .node d ls, ancestors, flows =>
    if d.hidden then flows
    else walkFlowsList ls (.node d ls :: ancestors) (walkFlowsPush d ancestors flows)

def walkFlowsList : List SkNode → List SkNode → List FlowData → List FlowData
  | [], _, flows => flows
  | l :: rest, ancestors, flows => walkFlowsList rest ancestors (walkFlows l ancestors flows)

end

def extractFlows (artboard : SkNode) : List FlowData :=
  walkFlows artboard [] []

mutual

/-- The inner walk of countFlows: skip hidden layers, count flow carriers. -/
def countWalk : SkNode → Nat
  | .node d ls =>
    if d.hidden then 0
    else (if d.flow.isSome then 1 else 0) + countWalkList ls

def countWalkList : List SkNode → Nat
  | [] => 0
  | l :: rest => countWalk l + countWalkList rest

end

def countFlows (artboard : SkNode) : Nat :=
  countWalk artboard

-- ─── Lookup helpers (source part_003 lines 40-53, 680-697) ──────────

mutual

/-- The per-layer step of findInLayers: the layer itself, or a depth-first
hit inside its child array. -/
def findInLayer : SkNode → String → Option SkNode
  | .node d ls, id =>
    if d.id = id then some (.node d ls)
    else findInLayers ls id

/-- findInLayers: depth-first search for a node with the given id. -/
def findInLayers : List SkNode → String → Option SkNode
  | [], _ => none
  | l :: rest, id =>
    match findInLayer l id with
    | some found => some found
    | none => findInLayers rest id

end

/-- The page loop of findLayerById: return the first hit, else keep going. -/
def findLayerPages : List SkPage → String → Option SkNode
  | [], _ => none
  | p :: rest, id =>
    match findInLayers p.layers id with
    | some found => some found
    | none => findLayerPages rest id

/-- findLayerById: search every page in order. -/
def findLayerById (document : SkDocument) (id : String) : Option SkNode :=
  findLayerPages document.pages id

/-- The insertion sequence of buildArtboardMap: top-level Artboard or
SymbolMaster layers of every page, in page/layer order. -/
def artboardEntries (document : SkDocument) : List SkNode :=
  document.pages.flatMap (fun page =>
    page.layers.filter (fun l => l.type = "Artboard" || l.type = "SymbolMaster"))

/-- Map.get over the built artboard map: the last Map.set for an id wins,
hence lookup on the reversed insertion sequence. -/
def artboardMapFind (document : SkDocument) (id : String) : Option SkNode :=
  (artboardEntries document).reverse.find? (fun l => l.id = id)

/-- extractArtboardData (source part_003 lines 108-125). -/
def extractArtboardData (odoc : Option SkDocument) (artboardId : String) :
    Except String ArtboardData :=
  match odoc with
  | none => .error "No document open"
  | some document =>
    match (artboardMapFind document artboardId).orElse
        (fun _ => findLayerById document artboardId) with
    | none => .error ("Artboard " ++ artboardId ++ " not found")
    | some artboard =>
      let flows := extractFlows artboard
      .ok { artboardId := artboardId
            layers := extractLayerTree artboard
            flows := flows
            flowCount := flows.length }

/-- The node-resolution phase of exportArtboardImage (source part_003 lines
136-142); the raster export itself is host file-system work outside this
embedding, so the function returns the node the export would operate on. -/
def exportArtboardResolve (odoc : Option SkDocument) (artboardId : String) :
    Except String SkNode :=
  match odoc with
  | none => .error "No document open"
  | some document =>
    match (artboardMapFind document artboardId).orElse
        (fun _ => findLayerById document artboardId) with
    | none => .error ("Artboard " ++ artboardId ++ " not found")
    | some artboard => .ok artboard

-- ─── Specification-side helpers ─────────────────────────────────────

mutual

/-- The visible part of one subtree: empty if the root is hidden, else the
root followed by the visible descendants of its children. -/
def visibleDesc : SkNode → List SkNode
  | .node d cls =>
    if d.hidden then [] else .node d cls :: visibleDescList cls

/-- The visible strict descendants of a node list: nodes reachable from the
list through non-hidden nodes only. Hidden nodes and everything below them
are excluded. -/
def visibleDescList : List SkNode → List SkNode
  | [] => []
  | l :: rest => visibleDesc l ++ visibleDescList rest

end

mutual

/-- All Layer Nodes of one serialized layer, the layer itself included. -/
def flattenData : LayerData → List LayerData
  | .mk c cs =>
    .mk c cs ::
      (match cs with
        | some l => flattenList l
        | none => [])

def flattenList : List LayerData → List LayerData
  | [] => []
  | d :: ds => flattenData d ++ flattenList ds

end

/-- A flow annotation on a visible node leads walkFlows to push an edge
exactly when this holds (back sentinel, absent target, truthy concrete
target id, or truthy flow.targetId). -/
def flowPushable (f : FlowAttr) : Bool :=
  match f.target with
  | none => true
  | some .back => true
  | some (.toNode i _) => i ≠ "" || strTruthy f.targetId

mutual

/-- Every flow annotation reachable through visible nodes is pushable. -/
def flowsResolvable : SkNode → Bool
  | .node d ls =>
    if d.hidden then true
    else
      (match d.flow with
        | none => true
        | some f => flowPushable f) && flowsResolvableList ls

def flowsResolvableList : List SkNode → Bool
  | [] => true
  | l :: rest => flowsResolvable l && flowsResolvableList rest

end

-- ─── Lemmas about the flow walk ─────────────────────────────────────

theorem strTruthy_isSome (o : Option String) (h : strTruthy o = true) : o.isSome = true := by
  cases o <;> simp [strTruthy] at h ⊢

theorem flowPushable_cond (f : FlowAttr) (hp : flowPushable f = true) :
    ((flowTidName f).1.isSome || flowIsBack f) = true := by
  cases ht : f.target with
  | none => simp [flowIsBack, ht]
  | some tr =>
    cases tr with
    | back => simp [flowIsBack, ht]
    | toNode i nm =>
      simp only [flowPushable, ht, Bool.or_eq_true] at hp
      by_cases hi : i = ""
      · rcases hp with hp | hp
        · simp [hi] at hp
        · simp [flowTidName, flowIsBack, ht, hi, hp, strTruthy_isSome _ hp]
      · simp [flowTidName, flowIsBack, ht, hi]

theorem walkFlowsPush_mem (d : SkNodeData) (anc : List SkNode) (acc : List FlowData)
    (e : FlowData) (h : e ∈ walkFlowsPush d anc acc) : e ∈ acc ∨ e.sourceLayerId = d.id := by
  cases hf : d.flow with
  | none => simp only [walkFlowsPush, hf] at h; exact .inl h
  | some flow =>
    simp only [walkFlowsPush, hf] at h
    split at h
    case isTrue =>
      rcases List.mem_append.mp h with h1 | h1
      · exact .inl h1
      · have := List.mem_singleton.mp h1
        subst this
        exact .inr rfl
    case isFalse => exact .inl h

theorem walkFlowsPush_none (d : SkNodeData) (anc : List SkNode) (acc : List FlowData)
    (hf : d.flow = none) : walkFlowsPush d anc acc = acc := by
  simp only [walkFlowsPush, hf]

theorem walkFlowsPush_some_len (d : SkNodeData) (anc : List SkNode) (acc : List FlowData)
    (f : FlowAttr) (hf : d.flow = some f) (hp : flowPushable f = true) :
    (walkFlowsPush d anc acc).length = acc.length + 1 := by
  have hc := flowPushable_cond f hp
  simp only [walkFlowsPush, hf, hc, if_true]
  simp

-- ─── Membership in the visible-descendant list ──────────────────────

theorem mem_vdl_self (d : SkNodeData) (cls rest : List SkNode) (hd : d.hidden = false) :
    SkNode.node d cls ∈ visibleDescList (.node d cls :: rest) := by
  simp [visibleDescList, visibleDesc, hd]

theorem mem_vdl_child (d : SkNodeData) (cls rest : List SkNode) (m : SkNode)
    (hd : d.hidden = false) (hm : m ∈ visibleDescList cls) :
    m ∈ visibleDescList (.node d cls :: rest) := by
  simp [visibleDescList, visibleDesc, hd, hm]

theorem mem_vdl_rest (l : SkNode) (rest : List SkNode) (m : SkNode)
    (hm : m ∈ visibleDescList rest) : m ∈ visibleDescList (l :: rest) := by
  simp [visibleDescList, hm]

mutual

theorem visibleDesc_hidden : ∀ (n : SkNode) (m : SkNode),
    m ∈ visibleDesc n → m.hidden = false
  | .node d cls, m => by
    intro h
    by_cases hd : d.hidden = true
    · simp [visibleDesc, hd] at h
    · rw [Bool.not_eq_true] at hd
      simp only [visibleDesc, hd, Bool.false_eq_true, if_false, List.mem_cons] at h
      rcases h with rfl | h
      · simp [SkNode.hidden, SkNode.nodeData, hd]
      · exact visibleDescList_hidden cls m h

theorem visibleDescList_hidden : ∀ (ls : List SkNode) (m : SkNode),
    m ∈ visibleDescList ls → m.hidden = false
  | [], m => by intro h; simp [visibleDescList] at h
  | l :: rest, m => by
    intro h
    rcases List.mem_append.mp (by simpa [visibleDescList] using h) with h | h
    · exact visibleDesc_hidden l m h
    · exact visibleDescList_hidden rest m h

end

-- ─── The output tree is exactly the visible descendants ─────────────

theorem flattenData_extractLayer (d : SkNodeData) (cls : List SkNode) :
    flattenData (extractLayer (.node d cls)) =
      extractLayer (.node d cls) :: flattenList (extractLayerChildren cls) := by
  cases cls with
  | nil => rfl
  | cons c cs => rfl

theorem flattenChildren_eq : ∀ (ls : List SkNode),
    flattenList (extractLayerChildren ls) = (visibleDescList ls).map extractLayer
  | [] => by simp [extractLayerChildren, flattenList, visibleDescList]
  | .node d cls :: rest => by
    have ih1 := flattenChildren_eq cls
    have ih2 := flattenChildren_eq rest
    by_cases hd : (SkNode.node d cls).hidden = true
    · have hd2 : d.hidden = true := by simpa [SkNode.hidden, SkNode.nodeData] using hd
      rw [extractLayerChildren, if_pos hd, visibleDescList, visibleDesc, if_pos hd2]
      simpa using ih2
    · have hd2 : ¬d.hidden = true := by simpa [SkNode.hidden, SkNode.nodeData] using hd
      rw [extractLayerChildren, if_neg hd, visibleDescList, visibleDesc, if_neg hd2]
      rw [flattenList, flattenData_extractLayer, ih1, ih2]
      simp
termination_by ls => sizeOf ls

-- ─── Sources of extracted flow edges ────────────────────────────────

mutual

theorem walkFlows_src : ∀ (n : SkNode) (anc : List SkNode) (acc : List FlowData) (e : FlowData),
    e ∈ walkFlows n anc acc →
    e ∈ acc ∨ (n.hidden = false ∧
      (e.sourceLayerId = n.id ∨ ∃ m ∈ visibleDescList n.layers, e.sourceLayerId = m.id))
  | .node d ls, anc, acc, e => by
    intro h
    by_cases hd : d.hidden = true
    · simp only [walkFlows, hd, if_true] at h
      exact .inl h
    · simp only [walkFlows, hd, if_false] at h
      have hdf : d.hidden = false := Bool.not_eq_true _ ▸ hd
      have h2 := walkFlowsList_src ls (.node d ls :: anc) (walkFlowsPush d anc acc) e h
      rcases h2 with h2 | ⟨m, hm, hs⟩
      · rcases walkFlowsPush_mem d anc acc e h2 with h3 | h3
        · exact .inl h3
        · exact .inr ⟨by simp [SkNode.hidden, SkNode.nodeData, hdf], .inl h3⟩
      · exact .inr ⟨by simp [SkNode.hidden, SkNode.nodeData, hdf], .inr ⟨m, hm, hs⟩⟩

theorem walkFlowsList_src : ∀ (ls : List SkNode) (anc : List SkNode) (acc : List FlowData)
    (e : FlowData), e ∈ walkFlowsList ls anc acc →
    e ∈ acc ∨ ∃ m ∈ visibleDescList ls, e.sourceLayerId = m.id
  | [], _, _, _ => fun h => .inl h
  | l :: rest, anc, acc, e => by
    intro h
    simp only [walkFlowsList] at h
    rcases walkFlowsList_src rest anc (walkFlows l anc acc) e h with h1 | ⟨m, hm, hs⟩
    · rcases walkFlows_src l anc acc e h1 with h2 | ⟨hh, h3⟩
      · exact .inl h2
      · cases l with
        | node dl cll =>
          simp only [SkNode.hidden, SkNode.nodeData] at hh
          rcases h3 with h3 | ⟨m, hm, hs⟩
          · exact .inr ⟨.node dl cll, mem_vdl_self dl cll rest hh, by
              simpa [SkNode.id, SkNode.nodeData] using h3⟩
          · simp only [SkNode.layers] at hm
            exact .inr ⟨m, mem_vdl_child dl cll rest m hh hm, hs⟩
    · exact .inr ⟨m, mem_vdl_rest l rest m hm, hs⟩

end

-- ─── Flow counting agrees with edge extraction on resolvable flows ──

mutual

theorem walkFlows_len : ∀ (n : SkNode) (anc : List SkNode) (acc : List FlowData),
    flowsResolvable n = true → (walkFlows n anc acc).length = countWalk n + acc.length
  | .node d ls, anc, acc => by
    intro h
    by_cases hd : d.hidden = true
    · simp [walkFlows, countWalk, hd]
    · have hdf : d.hidden = false := Bool.not_eq_true _ ▸ hd
      cases hf : d.flow with
      | none =>
        simp only [flowsResolvable, hdf, hf] at h
        simp only [walkFlows, countWalk, hdf, hf, Bool.false_eq_true, if_false]
        rw [walkFlowsPush_none d anc acc hf,
          walkFlowsList_len ls (.node d ls :: anc) acc (by simpa using h)]
        simp
      | some f =>
        simp only [flowsResolvable, hdf, hf] at h
        simp only [Bool.false_eq_true, if_false, Bool.and_eq_true] at h
        simp only [walkFlows, countWalk, hdf, hf, Bool.false_eq_true, if_false]
        rw [walkFlowsList_len ls (.node d ls :: anc) (walkFlowsPush d anc acc) h.2,
          walkFlowsPush_some_len d anc acc f hf h.1]
        simp
        omega

theorem walkFlowsList_len : ∀ (ls : List SkNode) (anc : List SkNode) (acc : List FlowData),
    flowsResolvableList ls = true →
    (walkFlowsList ls anc acc).length = countWalkList ls + acc.length
  | [], _, _ => by intro _; simp [walkFlowsList, countWalkList]
  | l :: rest, anc, acc => by
    intro h
    simp only [flowsResolvableList, Bool.and_eq_true] at h
    simp only [walkFlowsList, countWalkList]
    rw [walkFlowsList_len rest anc (walkFlows l anc acc) h.2,
      walkFlows_len l anc acc h.1]
    omega

end

-- ─── Concrete example nodes ─────────────────────────────────────────

/-- A host layer record with every optional capability absent. -/
def blankData (id name ty : String) (hidden : Bool) : SkNodeData :=
  { id := id, name := name, type := ty, hidden := hidden, locked := false,
    frame := { x := 0, y := 0, width := 0, height := 0 },
    transformRotation := none, style := none, flow := none, text := none,
    exportFormats := [], symbolId := none, overrides := [] }

/-- A host style object with every field undefined. -/
def emptyNodeStyle : NodeStyle :=
  { opacity := none, blendingMode := none, fills := none, borders := none,
    shadows := none, innerShadows := none, blur := none, borderOpts := none,
    fontFamily := none, fontSize := none, fontWeight := none, fontStyle := none,
    textColor := none, lineHeight := none, kerning := none, alignment := none,
    textTransform := none, textDecoration := none, paragraphSpacing := none }

/-- A visible rectangle carrying a flow to artboard t1. -/
def caVisChild : SkNode :=
  .node
    { blankData "v1" "vis" "Rectangle" false with
      flow := some { target := some (.toNode "t1" "Screen2"), targetId := none,
                     animationType := none, isBackAction := false } }
    []

/-- A hidden group containing a visible flow-carrying child. -/
def caHiddenChild : SkNode :=
  .node (blankData "h1" "hiddenGroup" "Group" true)
    [.node
      { blankData "hv" "hiddenVis" "Rectangle" false with
        flow := some { target := some (.toNode "t9" "Screen9"), targetId := none,
                       animationType := none, isBackAction := false } }
      []]

/-- An artboard with one hidden subtree and one visible flow source. -/
def caEx : SkNode :=
  .node (blankData "idA" "Artboard1" "Artboard" false) [caHiddenChild, caVisChild]

/-- The single edge extractFlows produces for caEx. -/
def caEdge : FlowData :=
  { sourceLayerId := "v1", sourceLayerName := "vis",
    sourceRect := { x := round2 0, y := round2 0, width := round2 0, height := round2 0 },
    targetArtboardId := "t1", targetArtboardName := some "Screen2",
    animationType := "none", isBackAction := false }

-- ─── C1 ─────────────────────────────────────────────────────────────

/-- C1: every Layer Node in the tree returned by extractLayerTree is the
serialization of a visible descendant of the input (a node reachable without
passing any hidden node, itself non-hidden), and every edge returned by
extractFlows has as its source the artboard itself (only when non-hidden) or
such a visible descendant — so no hidden node, nor any node below a hidden
node, ever appears in the output tree or as a flow source. -/
theorem c1_extraction_skips_hidden :
    (∀ p : SkNode, flattenList (extractLayerTree p) = (visibleDescList p.layers).map extractLayer)
    ∧ (∀ (p : SkNode), ∀ n ∈ visibleDescList p.layers, n.hidden = false)
    ∧ (∀ (a : SkNode), ∀ e ∈ extractFlows a,
        a.hidden = false ∧
          (e.sourceLayerId = a.id ∨ ∃ m ∈ visibleDescList a.layers, e.sourceLayerId = m.id)) := by
  refine ⟨fun p => flattenChildren_eq p.layers,
    fun p n h => visibleDescList_hidden p.layers n h,
    fun a e h => ?_⟩
  rcases walkFlows_src a [] [] e h with h1 | h1
  · simp at h1
  · exact h1

/-- Witness for C1 at caEx: the visible child is reported visible, and the
single extracted edge has it as source. -/
theorem c1_extraction_skips_hidden_witness :
    (caVisChild ∈ visibleDescList caEx.layers ∧ caVisChild.hidden = false) ∧
    (caEdge ∈ extractFlows caEx ∧ caEx.hidden = false ∧
      (caEdge.sourceLayerId = caEx.id ∨
        ∃ m ∈ visibleDescList caEx.layers, caEdge.sourceLayerId = m.id)) := by
  have hmem1 : caVisChild ∈ visibleDescList caEx.layers := List.Mem.head _
  have hmem2 : caEdge ∈ extractFlows caEx := List.Mem.head _
  exact ⟨⟨hmem1, c1_extraction_skips_hidden.2.1 caEx caVisChild hmem1⟩,
    ⟨hmem2, c1_extraction_skips_hidden.2.2 caEx caEdge hmem2⟩⟩

-- ─── C2 ─────────────────────────────────────────────────────────────

/-- A visible layer whose flow has a concrete target with an empty (falsy)
id and no fallback targetId: countFlows counts it, walkFlows drops it. -/
def c2Bad : SkNode :=
  .node
    { blankData "b1" "badFlow" "Rectangle" false with
      flow := some { target := some (.toNode "" ""), targetId := none,
                     animationType := none, isBackAction := false } }
    []

def c2Art : SkNode := .node (blankData "idB" "Artboard2" "Artboard" false) [c2Bad]

/-- C2 counterexample: on an artboard holding one visible layer whose flow
target is a concrete reference with empty id and whose targetId is absent,
countFlows returns 1 while extractFlows returns no edge, so the two walks do
not classify the same node set. -/
theorem c2_countFlows_mismatch :
    countFlows c2Art = 1 ∧ (extractFlows c2Art).length = 0 ∧
      countFlows c2Art ≠ (extractFlows c2Art).length := by
  refine ⟨by decide, by decide, by decide⟩

/-- C2 (amended): countFlows a = (extractFlows a).length holds whenever every
flow annotation on a visible node of the artboard subtree is resolvable: its
target is the back sentinel or absent, or its concrete target has a non-empty
id, or its targetId is a non-empty string. -/
theorem c2_countFlows_eq_extractFlows_of_resolvable (a : SkNode)
    (h : flowsResolvable a = true) : countFlows a = (extractFlows a).length := by
  have h2 := walkFlows_len a [] [] h
  simp only [List.length_nil, Nat.add_zero] at h2
  exact h2.symm

/-- Witness for the amended C2 at caEx. -/
theorem c2_countFlows_eq_extractFlows_witness :
    flowsResolvable caEx = true ∧ countFlows caEx = (extractFlows caEx).length :=
  ⟨by decide, c2_countFlows_eq_extractFlows_of_resolvable caEx (by decide)⟩

-- ─── C6 ─────────────────────────────────────────────────────────────

/-- A visible group whose only child is hidden. -/
def c6Node : SkNode :=
  .node (blankData "g1" "group" "Group" false)
    [.node (blankData "hc1" "hiddenChild" "Rectangle" true) []]

/-- C6 counterexample: a node all of whose children are hidden still gets a
children field — it is assigned the empty array, not omitted — because
extractLayer keys the children field on the raw child array being non-empty,
not on the number of visible children. -/
theorem c6_children_present_without_visible_child :
    (extractLayer c6Node).children = some [] ∧
    c6Node.layers.filter (fun c => !c.hidden) = [] ∧
    ((extractLayer c6Node).children).isSome = true :=
  ⟨rfl, rfl, rfl⟩

theorem extractLayerChildren_all_hidden : ∀ (ls : List SkNode),
    (∀ c ∈ ls, c.hidden = true) → extractLayerChildren ls = []
  | [] => fun _ => rfl
  | l :: rest => fun h => by
    have h1 : l.hidden = true := h l (List.mem_cons_self l rest)
    rw [extractLayerChildren, if_pos h1]
    exact extractLayerChildren_all_hidden rest (fun c hc => h c (List.mem_cons_of_mem l hc))

/-- C6 (amended): the children field of an extracted Layer Node is present if
and only if the underlying node has at least one child, hidden or not; when
every child is hidden the field is still present and holds the empty list. -/
theorem c6_children_iff_has_child (n : SkNode) :
    ((extractLayer n).children.isSome = true ↔ n.layers ≠ []) ∧
    ((∀ c ∈ n.layers, c.hidden = true) →
      (extractLayer n).children = none ∨ (extractLayer n).children = some []) := by
  cases n with
  | node d ls =>
    constructor
    · cases ls with
      | nil => simp [extractLayer, SkNode.layers, LayerData.children]
      | cons c cs => simp [extractLayer, SkNode.layers, LayerData.children]
    · intro h
      cases ls with
      | nil => exact .inl rfl
      | cons c cs =>
        right
        have hall := extractLayerChildren_all_hidden (c :: cs)
          (by simpa [SkNode.layers] using h)
        simp [extractLayer, LayerData.children, hall]

/-- Witness for the amended C6 at c6Node. -/
theorem c6_children_iff_has_child_witness :
    ((extractLayer c6Node).children = none ∨ (extractLayer c6Node).children = some []) ∧
    (extractLayer c6Node).children.isSome = true :=
  ⟨(c6_children_iff_has_child c6Node).2 (by decide), rfl⟩

-- ─── C7 and C8 ──────────────────────────────────────────────────────

/-- A style whose borders and innerShadows arrays are present but empty and
whose fills and shadows are undefined. -/
def c7Style : NodeStyle :=
  { emptyNodeStyle with borders := some [], innerShadows := some [] }

/-- A visible rectangle carrying c7Style. -/
def c7Node : SkNodeData :=
  { blankData "s7" "styled" "Rectangle" false with style := some c7Style }

/-- C7: for every node with a style, extractStyle returns a Style object (it
never fails on empty sub-collections), and an empty or absent fills, borders,
shadows or innerShadows collection appears in the output as an assigned empty
list — present, never null, never an absent field. -/
theorem c7_style_empty_collections (d : SkNodeData) (st : NodeStyle)
    (h : d.style = some st) :
    ∃ out, extractStyle d = some out ∧
      ((st.fills = none ∨ st.fills = some []) → out.fills = some []) ∧
      ((st.borders = none ∨ st.borders = some []) → out.borders = some []) ∧
      ((st.shadows = none ∨ st.shadows = some []) → out.shadows = some []) ∧
      ((st.innerShadows = none ∨ st.innerShadows = some []) → out.innerShadows = some []) := by
  simp only [extractStyle, h]
  refine ⟨_, rfl, ?_, ?_, ?_, ?_⟩ <;>
    (intro hc; rcases hc with hc | hc <;> simp [hc])

/-- Witness for C7 at c7Node: empty borders and innerShadows, undefined fills
and shadows, all four serialized as present empty lists. -/
theorem c7_style_empty_collections_witness :
    (extractStyle c7Node).map StyleOut.fills = some (some []) ∧
    (extractStyle c7Node).map StyleOut.borders = some (some []) ∧
    (extractStyle c7Node).map StyleOut.shadows = some (some []) ∧
    (extractStyle c7Node).map StyleOut.innerShadows = some (some []) := by
  obtain ⟨out, heq, h1, h2, h3, h4⟩ := c7_style_empty_collections c7Node c7Style rfl
  rw [heq]
  simp [h1 (Or.inl rfl), h2 (Or.inr rfl), h3 (Or.inl rfl), h4 (Or.inr rfl)]

/-- C8 counterexample: serialized empty collections are not omitted — the
node with an empty border list (and empty inner-shadow list, undefined fills
and shadows) yields a Style whose four collection fields are all assigned the
empty list, not absent. -/
theorem c8_empty_collections_not_omitted :
    (extractStyle c7Node).map StyleOut.borders = some (some []) ∧
    (extractStyle c7Node).map StyleOut.borders ≠ some none ∧
    (extractStyle c7Node).map StyleOut.fills = some (some []) ∧
    (extractStyle c7Node).map StyleOut.fills ≠ some none := by
  refine ⟨by decide, by decide, by decide, by decide⟩

/-- C8 (amended): the four collection fields of a serialized Style are always
present — extractStyle assigns each of fills, borders, shadows and
innerShadows unconditionally, so an empty collection is serialized as an
empty list rather than omitted. -/
theorem c8_style_collections_always_present (d : SkNodeData) (out : StyleOut)
    (h : extractStyle d = some out) :
    out.fills.isSome = true ∧ out.borders.isSome = true ∧
    out.shadows.isSome = true ∧ out.innerShadows.isSome = true := by
  cases hs : d.style with
  | none => simp [extractStyle, hs] at h
  | some st =>
    simp only [extractStyle, hs, Option.some.injEq] at h
    subst h
    simp

/-- Witness for the amended C8 at c7Node. -/
theorem c8_style_collections_always_present_witness :
    (extractStyle c7Node).isSome = true ∧
    (extractStyle c7Node).map
      (fun o => o.fills.isSome && o.borders.isSome && o.shadows.isSome && o.innerShadows.isSome)
      = some true := by
  obtain ⟨out, heq⟩ : ∃ out, extractStyle c7Node = some out := ⟨_, rfl⟩
  have h4 := c8_style_collections_always_present c7Node out heq
  rw [heq]
  simp [h4.1, h4.2.1, h4.2.2.1, h4.2.2.2]

-- ─── Publish queue and skip-set computation (part_005 lines 116-206) ─

structure PubArtboard where
  id : String
  name : String

structure PubPage where
  name : String
  artboards : List PubArtboard

/-- The inputs startPublish reads when building the queue and choosing the
skip set: the document pages, the selected-artboard id set, the version the
user chose (state.selectedVersionId), the resume flag, the version id kept in
the publish store from the previous run, the id the server would assign to a
fresh version, and the uploaded-screen id list the server reports per
version (the value getUploadedScreenIds resolves with). -/
structure PublishArgs where
  pages : List PubPage
  selected : List String
  selectedVersionId : Option String
  isResume : Bool
  prevVersionId : Option String
  newVersionId : String
  serverUploaded : String → List String

structure QueueItem where
  id : String
  name : String
  pageName : String
deriving DecidableEq, Repr

/-- Queue construction (lines 127-138): selected artboards in page order. -/
def buildQueue (a : PublishArgs) : List QueueItem :=
  a.pages.flatMap (fun page =>
    (page.artboards.filter (fun ab => a.selected.contains ab.id)).map
      (fun ab => { id := ab.id, name := ab.name, pageName := page.name }))

structure PublishPlan where
  versionId : String
  uploadedIds : List String
  markedDone : List String
  toUpload : List QueueItem

/-- The version/skip-set branch of startPublish (lines 160-206): with a
chosen version and no resume, skip ids are the server list minus the current
selection; resuming with a kept version id skips the full server list; any
other combination creates a fresh version and skips nothing. Items of the
queue whose id is in the skip set are marked done immediately (markedDone);
the rest are uploaded (toUpload). -/
def publishPlan (a : PublishArgs) : PublishPlan :=
  let queue := buildQueue a
  let branch : String × List String :=
    if strTruthy a.selectedVersionId && !a.isResume then
      match a.selectedVersionId with
      | some v => (v, (a.serverUploaded v).filter (fun id => !a.selected.contains id))
      | none => (a.newVersionId, [])
    else if !a.isResume || !strTruthy a.prevVersionId then
      (a.newVersionId, [])
    else
      match a.prevVersionId with
      | some v => (v, a.serverUploaded v)
      | none => (a.newVersionId, [])
  { versionId := branch.1
    uploadedIds := branch.2
    markedDone := (queue.filter (fun item => branch.2.contains item.id)).map (fun i => i.id)
    toUpload := queue.filter (fun item => !branch.2.contains item.id) }

theorem buildQueue_mem (a : PublishArgs) (q : QueueItem) (h : q ∈ buildQueue a) :
    a.selected.contains q.id = true := by
  simp only [buildQueue, List.mem_flatMap, List.mem_map, List.mem_filter] at h
  obtain ⟨page, _, ab, ⟨_, hsel⟩, rfl⟩ := h
  exact hsel

-- ─── C3 ─────────────────────────────────────────────────────────────

/-- Publish arguments where the server already holds a screen (id b) that is
not part of the current selection (only a is selected), targeting the
existing version v7 without resuming. -/
def c3Args : PublishArgs :=
  { pages := [{ name := "P1", artboards := [{ id := "a", name := "A" }, { id := "b", name := "B" }] }],
    selected := ["a"],
    selectedVersionId := some "v7",
    isResume := false,
    prevVersionId := none,
    newVersionId := "new1",
    serverUploaded := fun v => if v = "v7" then ["b"] else [] }

/-- C3 counterexample: targeting an existing version, the server-minus-
selection set is the nonempty list [b], yet the set of items marked done
immediately is empty — the queue holds only selected artboards, and the
computed skip set contains only non-selected ids, so the two sets differ. -/
theorem c3_skipped_items_mismatch :
    (publishPlan c3Args).markedDone = [] ∧
    (c3Args.serverUploaded "v7").filter (fun id => !c3Args.selected.contains id) = ["b"] ∧
    "b" ∉ (publishPlan c3Args).markedDone := by
  refine ⟨by decide, by decide, by decide⟩

/-- C3 (amended): with a chosen version (truthy id) and no resume, the
computed skip-id set equals the server already-uploaded list minus the
current selection, and the set of queue items marked done immediately is
empty, since the queue contains only selected artboards and the skip set
only non-selected ids; on a resume with a kept version id, no queue item
whose id the server reports as uploaded is in the upload list. -/
theorem c3_skip_set (a : PublishArgs) (v : String) :
    (a.selectedVersionId = some v → v ≠ "" → a.isResume = false →
      (publishPlan a).uploadedIds
          = (a.serverUploaded v).filter (fun id => !a.selected.contains id)
        ∧ (publishPlan a).markedDone = []) ∧
    (a.isResume = true → a.prevVersionId = some v → v ≠ "" →
      ∀ q ∈ (publishPlan a).toUpload, q.id ∉ a.serverUploaded v) := by
  constructor
  · intro hsel hv hres
    have hplan :
        (publishPlan a).uploadedIds
            = (a.serverUploaded v).filter (fun id => !a.selected.contains id)
          ∧ (publishPlan a).markedDone
            = ((buildQueue a).filter (fun item =>
                ((a.serverUploaded v).filter (fun id => !a.selected.contains id)).contains
                  item.id)).map (fun i => i.id) := by
      unfold publishPlan
      rw [hsel]
      simp [strTruthy, hv, hres]
    refine ⟨hplan.1, ?_⟩
    rw [hplan.2, List.map_eq_nil_iff, List.filter_eq_nil_iff]
    intro q hq
    have hqsel : q.id ∈ a.selected := List.elem_iff.mp (buildQueue_mem a q hq)
    intro hcon
    have hqup : q.id ∈ (a.serverUploaded v).filter (fun id => !a.selected.contains id) :=
      List.elem_iff.mp hcon
    have hfalse := (List.mem_filter.mp hqup).2
    rw [Bool.not_eq_eq_eq_not, Bool.not_true] at hfalse
    simp at hfalse
    exact hfalse hqsel
  · intro hres hprev hv q hq
    have hplan : (publishPlan a).toUpload
        = (buildQueue a).filter (fun item => !(a.serverUploaded v).contains item.id) := by
      unfold publishPlan
      rw [hprev]
      simp [strTruthy, hres, hv]
    rw [hplan] at hq
    have hfalse := (List.mem_filter.mp hq).2
    rw [Bool.not_eq_eq_eq_not, Bool.not_true] at hfalse
    intro hmem
    simp at hfalse
    exact hfalse hmem

/-- Publish arguments for a resumed run: both artboards selected, version v7
kept from the failed run, screen b already uploaded on the server. -/
def c3ResumeArgs : PublishArgs :=
  { pages := [{ name := "P1", artboards := [{ id := "a", name := "A" }, { id := "b", name := "B" }] }],
    selected := ["a", "b"],
    selectedVersionId := none,
    isResume := true,
    prevVersionId := some "v7",
    newVersionId := "new2",
    serverUploaded := fun v => if v = "v7" then ["b"] else [] }

/-- Witness for the amended C3: the chosen-version branch at c3Args and the
resume branch at c3ResumeArgs. -/
theorem c3_skip_set_witness :
    ((publishPlan c3Args).uploadedIds = ["b"] ∧ (publishPlan c3Args).markedDone = []) ∧
    (∀ q ∈ (publishPlan c3ResumeArgs).toUpload, q.id ∉ c3ResumeArgs.serverUploaded "v7") := by
  refine ⟨?_, (c3_skip_set c3ResumeArgs "v7").2 rfl rfl (by decide)⟩
  obtain ⟨h1, h2⟩ := (c3_skip_set c3Args "v7").1 rfl (by decide) rfl
  exact ⟨by rw [h1]; decide, h2⟩

-- ─── Token upload and finalize tail (part_004 lines 339-362, part_005 lines 280-324) ─

/-- The outcome of one fetch call: an HTTP response with a status code, or a
network-level error (the fetch promise rejects). -/
inductive FetchResult where
  | resp (status : Nat)
  | netError
deriving DecidableEq, Repr

/-- apiFetch: a network error propagates; a 401 clears credentials and throws
Authentication expired; any other response is returned to the caller. -/
def apiFetchM : FetchResult → Except String Nat
  | .netError => .error "network error"
  | .resp s => if s = 401 then .error "Authentication expired" else .ok s

/-- uploadTokens: a non-2xx response only logs a warning and resolves; only
an apiFetch throw (network error or 401) escapes to the caller. -/
def uploadTokensRun (r : FetchResult) : Except String Unit :=
  match apiFetchM r with
  | .error e => .error e
  | .ok _ => .ok ()

/-- finalizeVersion: awaits apiFetch without checking res.ok. -/
def finalizeVersionRun (r : FetchResult) : Except String Unit :=
  match apiFetchM r with
  | .error e => .error e
  | .ok _ => .ok ()

inductive PublishStep where
  | creating
  | screens
  | tokens
  | finalizing
  | done
  | failed
deriving DecidableEq, Repr

/-- The tail of startPublish after every screen item settled successfully and
no cancellation happened: upload the design tokens when the document has
them, then finalize; any exception escaping either await lands in the outer
catch, which sets the publish step to failed. -/
def publishTail (hasTokens : Bool) (tokenRes finRes : FetchResult) : PublishStep :=
  let tok : Except String Unit := if hasTokens then uploadTokensRun tokenRes else .ok ()
  match tok with
  | .error _ => .failed
  | .ok _ =>
    match finalizeVersionRun finRes with
    | .error _ => .failed
    | .ok _ => .done

-- ─── C9 ─────────────────────────────────────────────────────────────

/-- C9 counterexample: a token upload that fails at the network level (the
fetch rejects) escapes uploadTokens, is caught by the outer catch and moves
the publish to failed instead of done — a token-upload failure can abort the
publish. -/
theorem c9_token_network_failure_fails_publish :
    publishTail true FetchResult.netError (FetchResult.resp 200) = PublishStep.failed ∧
    publishTail true FetchResult.netError (FetchResult.resp 200) ≠ PublishStep.done :=
  ⟨rfl, by decide⟩

/-- C9 (amended): a token-upload failure in the form of an HTTP error
response (non-2xx status other than 401) is logged and swallowed inside
uploadTokens: the run behaves as if tokens were skipped and still reaches
done when finalize succeeds. Only an apiFetch throw — network failure or 401
session expiry — fails the publish. -/
theorem c9_token_http_failure_tolerated (s : Nat) (fin : FetchResult) (h : s ≠ 401) :
    publishTail true (FetchResult.resp s) fin = publishTail false (FetchResult.resp s) fin ∧
    publishTail true (FetchResult.resp s) (FetchResult.resp 200) = PublishStep.done := by
  constructor <;> simp [publishTail, uploadTokensRun, finalizeVersionRun, apiFetchM, h]

/-- Witness for the amended C9: a 500 token-upload response still ends done. -/
theorem c9_token_http_failure_tolerated_witness :
    publishTail true (FetchResult.resp 500) (FetchResult.resp 200) = PublishStep.done :=
  (c9_token_http_failure_tolerated 500 (FetchResult.resp 200) (by decide)).2

-- ─── All nodes of a document, and search lemmas ─────────────────────

mutual

/-- Every node of one subtree, the root included. -/
def allNodes : SkNode → List SkNode
  | .node d ls => .node d ls :: allNodesList ls

def allNodesList : List SkNode → List SkNode
  | [] => []
  | l :: rest => allNodes l ++ allNodesList rest

end

/-- Every node nested anywhere in the document. -/
def allDocNodes (document : SkDocument) : List SkNode :=
  document.pages.flatMap (fun p => allNodesList p.layers)

theorem mem_allNodesList_of_mem : ∀ (ls : List SkNode) (l : SkNode),
    l ∈ ls → l ∈ allNodesList ls
  | [], l => by intro h; cases h
  | l0 :: rest, l => by
    intro h
    rcases List.mem_cons.mp h with rfl | h
    · cases l with
      | node d cls =>
        simp [allNodesList, allNodes]
    · simp only [allNodesList, List.mem_append]
      exact .inr (mem_allNodesList_of_mem rest l h)

mutual

theorem findInLayer_eq_none : ∀ (l : SkNode) (id : String),
    findInLayer l id = none ↔ ∀ n ∈ allNodes l, n.id ≠ id
  | .node d ls, id => by
    by_cases hd : d.id = id
    · rw [findInLayer, if_pos hd]
      simp only [allNodes]
      constructor
      · intro h; cases h
      · intro hall
        exact absurd (by simpa [SkNode.id, SkNode.nodeData] using hd)
          (hall (.node d ls) (List.mem_cons_self _ _))
    · rw [findInLayer, if_neg hd]
      rw [findInLayers_eq_none ls id]
      simp only [allNodes]
      constructor
      · intro hall n hn
        rcases List.mem_cons.mp hn with rfl | hn
        · simpa [SkNode.id, SkNode.nodeData] using hd
        · exact hall n hn
      · intro hall n hn
        exact hall n (List.mem_cons_of_mem _ hn)

theorem findInLayers_eq_none : ∀ (ls : List SkNode) (id : String),
    findInLayers ls id = none ↔ ∀ n ∈ allNodesList ls, n.id ≠ id
  | [], id => by simp [findInLayers, allNodesList]
  | l :: rest, id => by
    rw [findInLayers]
    cases hf : findInLayer l id with
    | some found =>
      simp only [allNodesList]
      constructor
      · intro h; cases h
      · intro hall
        have hs := findInLayer_sound l id found hf
        exact absurd hs.2 (hall found (List.mem_append_left _ hs.1))
    | none =>
      simp only [allNodesList]
      rw [findInLayers_eq_none rest id]
      constructor
      · intro hall n hn
        rcases List.mem_append.mp hn with hn | hn
        · exact (findInLayer_eq_none l id).mp hf n hn
        · exact hall n hn
      · intro hall n hn
        exact hall n (List.mem_append_right _ hn)

theorem findInLayer_sound : ∀ (l : SkNode) (id : String) (fnd : SkNode),
    findInLayer l id = some fnd → fnd ∈ allNodes l ∧ fnd.id = id
  | .node d ls, id, fnd => by
    by_cases hd : d.id = id
    · rw [findInLayer, if_pos hd]
      intro h
      obtain rfl : SkNode.node d ls = fnd := Option.some.inj h
      exact ⟨by simp [allNodes], by simpa [SkNode.id, SkNode.nodeData] using hd⟩
    · rw [findInLayer, if_neg hd]
      intro h
      have hs := findInLayers_sound ls id fnd h
      exact ⟨by simp only [allNodes]; exact List.mem_cons_of_mem _ hs.1, hs.2⟩

theorem findInLayers_sound : ∀ (ls : List SkNode) (id : String) (fnd : SkNode),
    findInLayers ls id = some fnd → fnd ∈ allNodesList ls ∧ fnd.id = id
  | [], id, fnd => by intro h; simp [findInLayers] at h
  | l :: rest, id, fnd => by
    rw [findInLayers]
    cases hf : findInLayer l id with
    | some found =>
      intro h
      have heq : found = fnd := Option.some.inj h
      rw [← heq]
      have hs := findInLayer_sound l id found hf
      exact ⟨by simp only [allNodesList]; exact List.mem_append_left _ hs.1, hs.2⟩
    | none =>
      intro h
      have hs := findInLayers_sound rest id fnd h
      exact ⟨by simp only [allNodesList]; exact List.mem_append_right _ hs.1, hs.2⟩

end

theorem findLayerPages_eq_none : ∀ (ps : List SkPage) (id : String),
    findLayerPages ps id = none ↔ ∀ n ∈ ps.flatMap (fun p => allNodesList p.layers), n.id ≠ id
  | [], id => by simp [findLayerPages]
  | p :: rest, id => by
    rw [findLayerPages]
    cases hf : findInLayers p.layers id with
    | some found =>
      simp only [List.flatMap_cons]
      constructor
      · intro h; cases h
      · intro hall
        have hs := findInLayers_sound p.layers id found hf
        exact absurd hs.2 (hall found (List.mem_append_left _ hs.1))
    | none =>
      simp only [List.flatMap_cons]
      rw [findLayerPages_eq_none rest id]
      constructor
      · intro hall n hn
        rcases List.mem_append.mp hn with hn | hn
        · exact (findInLayers_eq_none p.layers id).mp hf n hn
        · exact hall n hn
      · intro hall n hn
        exact hall n (List.mem_append_right _ hn)

theorem findLayerPages_sound : ∀ (ps : List SkPage) (id : String) (fnd : SkNode),
    findLayerPages ps id = some fnd →
    fnd ∈ ps.flatMap (fun p => allNodesList p.layers) ∧ fnd.id = id
  | [], id, fnd => by intro h; simp [findLayerPages] at h
  | p :: rest, id, fnd => by
    rw [findLayerPages]
    cases hf : findInLayers p.layers id with
    | some found =>
      intro h
      have heq : found = fnd := Option.some.inj h
      rw [← heq]
      have hs := findInLayers_sound p.layers id found hf
      exact ⟨by simp only [List.flatMap_cons]; exact List.mem_append_left _ hs.1, hs.2⟩
    | none =>
      intro h
      have hs := findLayerPages_sound rest id fnd h
      exact ⟨by simp only [List.flatMap_cons]; exact List.mem_append_right _ hs.1, hs.2⟩

theorem artboardMapFind_sound (document : SkDocument) (id : String) (n : SkNode)
    (h : artboardMapFind document id = some n) : n.id = id ∧ n ∈ allDocNodes document := by
  unfold artboardMapFind at h
  have hp := List.find?_some h
  have hm := List.mem_of_find?_eq_some h
  rw [List.mem_reverse] at hm
  refine ⟨by simpa using hp, ?_⟩
  simp only [artboardEntries, List.mem_flatMap, List.mem_filter] at hm
  obtain ⟨page, hpage, hmem, -⟩ := hm
  simp only [allDocNodes, List.mem_flatMap]
  exact ⟨page, hpage, mem_allNodesList_of_mem _ _ hmem⟩

-- ─── C10 ────────────────────────────────────────────────────────────

/-- C10: when an id is missing from the artboard index but findLayerById
locates a node for it (an artboard or any nested node such as a group),
extractArtboardData succeeds with the tree and flows of that node and the
export resolution yields the same node; a node returned by findLayerById
always carries the requested id and lies in the document; and the not-found
error is raised exactly when no node anywhere in the document has the id. -/
theorem c10_lookup_fallback (document : SkDocument) (id : String) (n : SkNode) :
    (artboardMapFind document id = none → findLayerById document id = some n →
      extractArtboardData (some document) id
          = .ok { artboardId := id, layers := extractLayerTree n,
                  flows := extractFlows n, flowCount := (extractFlows n).length }
        ∧ exportArtboardResolve (some document) id = .ok n) ∧
    (findLayerById document id = some n → n.id = id ∧ n ∈ allDocNodes document) ∧
    (extractArtboardData (some document) id = .error ("Artboard " ++ id ++ " not found")
      ↔ ∀ m ∈ allDocNodes document, m.id ≠ id) := by
  refine ⟨?_, ?_, ?_⟩
  · intro hmap hfind
    constructor <;>
      simp [extractArtboardData, exportArtboardResolve, hmap, hfind, Option.orElse]
  · intro hfind
    have hs := findLayerPages_sound document.pages id n hfind
    exact ⟨hs.2, hs.1⟩
  · constructor
    · intro herr
      cases hmap : artboardMapFind document id with
      | some found =>
        simp [extractArtboardData, hmap, Option.orElse] at herr
      | none =>
        cases hfind : findLayerById document id with
        | some found =>
          simp [extractArtboardData, hmap, hfind, Option.orElse] at herr
        | none =>
          exact (findLayerPages_eq_none document.pages id).mp hfind
    · intro hall
      have hfind : findLayerById document id = none :=
        (findLayerPages_eq_none document.pages id).mpr hall
      have hmap : artboardMapFind document id = none := by
        cases hmap : artboardMapFind document id with
        | none => rfl
        | some found =>
          have hs := artboardMapFind_sound document id found hmap
          exact absurd hs.1 (hall found hs.2)
      simp [extractArtboardData, hmap, hfind, Option.orElse]

/-- A visible group nested inside an artboard; its id is not in the artboard
index. -/
def c10Grp : SkNode := .node (blankData "grp1" "Group1" "Group" false) []

def c10Art : SkNode := .node (blankData "art1" "ArtboardX" "Artboard" false) [c10Grp]

def c10Doc : SkDocument := { docId := "doc1", pages := [{ name := "P1", layers := [c10Art] }] }

/-- Witness for C10: the group id grp1 misses the artboard index, the
full-tree search finds it, and both operations run on that node. -/
theorem c10_lookup_fallback_witness :
    artboardMapFind c10Doc "grp1" = none ∧
    findLayerById c10Doc "grp1" = some c10Grp ∧
    extractArtboardData (some c10Doc) "grp1"
        = .ok { artboardId := "grp1", layers := extractLayerTree c10Grp,
                flows := extractFlows c10Grp, flowCount := (extractFlows c10Grp).length } ∧
    exportArtboardResolve (some c10Doc) "grp1" = .ok c10Grp := by
  have h1 : artboardMapFind c10Doc "grp1" = none := rfl
  have h2 : findLayerById c10Doc "grp1" = some c10Grp := rfl
  have h3 := (c10_lookup_fallback c10Doc "grp1" c10Grp).1 h1 h2
  exact ⟨h1, h2, h3.1, h3.2⟩

-- ─── Request correlator (src/webview/lib/bridge.ts lines 75-223) ────

/-- How the promise of one request eventually settles. -/
inductive Outcome where
  | resolvedO (payload : String)
  | rejectedSuperseded
  | rejectedTimeout
  | rejectedError (msg : String)
deriving DecidableEq, Repr

/-- The correlator state for one of the three pending maps: the id counter
naming requests in creation order, the map from correlation key to the id of
its current pending request (none when the key has no entry), and the settle
state of every request promise created so far (none while still pending).
JS promises settle at most once; a second resolve or reject is a no-op. -/
structure BridgeState where
  nextId : Nat
  pendingKey : String → Option Nat
  settled : Nat → Option Outcome

def bridgeInit : BridgeState :=
  { nextId := 0, pendingKey := fun _ => none, settled := fun _ => none }

/-- Settle a request promise: a no-op when it already settled. -/
def settleReq (s : BridgeState) (r : Nat) (o : Outcome) : BridgeState :=
  match s.settled r with
  | some _ => s
  | none => { s with settled := Function.update s.settled r (some o) }

/-- requestArtboardData (lines 88-105): clear the timer of and reject any
still-pending request under the same key (Superseded by new request), then
store the new request in the map and issue the underlying call. -/
def newRequestRun (s : BridgeState) (key : String) : BridgeState :=
  let s1 :=
    match s.pendingKey key with
    | some r => settleReq s r .rejectedSuperseded
    | none => s
  { s1 with pendingKey := Function.update s1.pendingKey key (some s1.nextId),
            nextId := s1.nextId + 1 }

/-- The artboardData reply handler (lines 185-193): resolve and remove the
pending entry for the key; without an entry the reply is a no-op. -/
def resolveRun (s : BridgeState) (key : String) (v : String) : BridgeState :=
  match s.pendingKey key with
  | some r =>
    { settleReq s r (.resolvedO v) with
      pendingKey := Function.update s.pendingKey key none }
  | none => s

/-- The artboardDataError reply handler (lines 195-203). -/
def rejectRun (s : BridgeState) (key : String) (msg : String) : BridgeState :=
  match s.pendingKey key with
  | some r =>
    { settleReq s r (.rejectedError msg) with
      pendingKey := Function.update s.pendingKey key none }
  | none => s

/-- The timeout timer of request r (lines 97-100): delete the map entry and
reject. The timer is cleared whenever the entry is replaced or removed, so
it can only fire while r is still the current entry for its key. -/
def timeoutRun (s : BridgeState) (key : String) (r : Nat) : BridgeState :=
  { settleReq s r .rejectedTimeout with
    pendingKey := Function.update s.pendingKey key none }

inductive BStep : BridgeState → BridgeState → Prop where
  | newReq (s : BridgeState) (key : String) : BStep s (newRequestRun s key)
  | resolveMsg (s : BridgeState) (key v : String) : BStep s (resolveRun s key v)
  | rejectMsg (s : BridgeState) (key msg : String) : BStep s (rejectRun s key msg)
  | timerFire (s : BridgeState) (key : String) (r : Nat) :
      s.pendingKey key = some r → BStep s (timeoutRun s key r)

inductive BReach : BridgeState → Prop where
  | init : BReach bridgeInit
  | step {s s2 : BridgeState} : BReach s → BStep s s2 → BReach s2

inductive BSteps : BridgeState → BridgeState → Prop where
  | refl (s : BridgeState) : BSteps s s
  | tail {s s2 s3 : BridgeState} : BSteps s s2 → BStep s2 s3 → BSteps s s3

/-- Correlator invariant: every map-resident request is still unsettled and
was created earlier than the counter; ids at or past the counter are fresh;
and no two keys share a pending request id. -/
def BInv (s : BridgeState) : Prop :=
  (∀ key r, s.pendingKey key = some r → s.settled r = none ∧ r < s.nextId) ∧
  (∀ r, s.nextId ≤ r → s.settled r = none) ∧
  (∀ key key2 r, s.pendingKey key = some r → s.pendingKey key2 = some r → key = key2)

theorem settleReq_pendingKey (s : BridgeState) (r : Nat) (o : Outcome) :
    (settleReq s r o).pendingKey = s.pendingKey := by
  unfold settleReq; cases s.settled r <;> rfl

theorem settleReq_nextId (s : BridgeState) (r : Nat) (o : Outcome) :
    (settleReq s r o).nextId = s.nextId := by
  unfold settleReq; cases s.settled r <;> rfl

theorem settleReq_settled_other (s : BridgeState) (r : Nat) (o : Outcome) (r2 : Nat)
    (h : r2 ≠ r) : (settleReq s r o).settled r2 = s.settled r2 := by
  unfold settleReq
  cases s.settled r with
  | some _ => rfl
  | none => simp [Function.update_noteq h]

theorem settleReq_settled_mono (s : BridgeState) (r : Nat) (o : Outcome) (r2 : Nat)
    (o2 : Outcome) (h : s.settled r2 = some o2) : (settleReq s r o).settled r2 = some o2 := by
  by_cases hr : r2 = r
  · subst hr; unfold settleReq; rw [h]; exact h
  · rw [settleReq_settled_other s r o r2 hr]; exact h

theorem settleReq_settled_self (s : BridgeState) (r : Nat) (o : Outcome)
    (h : s.settled r = none) : (settleReq s r o).settled r = some o := by
  unfold settleReq; rw [h]; simp

/-- The shared shape of the three inbound reply handlers and the timeout:
settle the pending request of the key with the given outcome and clear the
map entry; without an entry the event is a no-op. -/
def replyRun (s : BridgeState) (key : String) (o : Outcome) : BridgeState :=
  match s.pendingKey key with
  | some r =>
    { settleReq s r o with pendingKey := Function.update s.pendingKey key none }
  | none => s

theorem resolveRun_eq_replyRun (s : BridgeState) (key v : String) :
    resolveRun s key v = replyRun s key (.resolvedO v) := by
  unfold resolveRun replyRun; cases s.pendingKey key <;> rfl

theorem rejectRun_eq_replyRun (s : BridgeState) (key msg : String) :
    rejectRun s key msg = replyRun s key (.rejectedError msg) := by
  unfold rejectRun replyRun; cases s.pendingKey key <;> rfl

theorem timeoutRun_eq_replyRun (s : BridgeState) (key : String) (r : Nat)
    (h : s.pendingKey key = some r) :
    timeoutRun s key r = replyRun s key .rejectedTimeout := by
  unfold timeoutRun replyRun; rw [h]

theorem replyRun_inv (s : BridgeState) (key : String) (o : Outcome) (hi : BInv s) :
    BInv (replyRun s key o) := by
  obtain ⟨hp1, hfresh, hinj⟩ := hi
  cases hp : s.pendingKey key with
  | none => simpa only [replyRun, hp] using ⟨hp1, hfresh, hinj⟩
  | some rr =>
    have hrr := hp1 key rr hp
    refine ⟨?_, ?_, ?_⟩
    · intro key2 r hk
      simp only [replyRun, hp] at hk ⊢
      rw [settleReq_nextId]
      by_cases hkey : key2 = key
      · subst hkey; rw [Function.update_same] at hk; cases hk
      · rw [Function.update_noteq hkey] at hk
        have h2 := hp1 key2 r hk
        have hne : r ≠ rr := fun he => hkey (hinj key2 key r hk (he ▸ hp))
        exact ⟨by rw [settleReq_settled_other s rr o r hne]; exact h2.1, h2.2⟩
    · intro r hr
      simp only [replyRun, hp] at hr ⊢
      rw [settleReq_nextId] at hr
      have hne : r ≠ rr := by intro he; subst he; omega
      rw [settleReq_settled_other s rr o r hne]
      exact hfresh r hr
    · intro key2 key3 r hk2 hk3
      simp only [replyRun, hp] at hk2 hk3
      by_cases h2 : key2 = key
      · subst h2; rw [Function.update_same] at hk2; cases hk2
      · by_cases h3 : key3 = key
        · subst h3; rw [Function.update_same] at hk3; cases hk3
        · rw [Function.update_noteq h2] at hk2
          rw [Function.update_noteq h3] at hk3
          exact hinj key2 key3 r hk2 hk3

theorem newRequestRun_inv (s : BridgeState) (key : String) (hi : BInv s) :
    BInv (newRequestRun s key) := by
  obtain ⟨hp1, hfresh, hinj⟩ := hi
  cases hp : s.pendingKey key with
  | none =>
    refine ⟨?_, ?_, ?_⟩
    · intro key2 r hk
      simp only [newRequestRun, hp] at hk ⊢
      by_cases hkey : key2 = key
      · subst hkey
        rw [Function.update_same] at hk
        obtain rfl : s.nextId = r := Option.some.inj hk
        exact ⟨hfresh _ (le_refl _), Nat.lt_succ_self _⟩
      · rw [Function.update_noteq hkey] at hk
        have h2 := hp1 key2 r hk
        exact ⟨h2.1, Nat.lt_succ_of_lt h2.2⟩
    · intro r hr
      simp only [newRequestRun, hp] at hr ⊢
      exact hfresh r (Nat.le_of_succ_le hr)
    · intro key2 key3 r hk2 hk3
      simp only [newRequestRun, hp] at hk2 hk3
      by_cases h2 : key2 = key
      · by_cases h3 : key3 = key
        · subst h2; subst h3; rfl
        · subst h2
          rw [Function.update_same] at hk2
          rw [Function.update_noteq h3] at hk3
          obtain rfl : s.nextId = r := Option.some.inj hk2
          exact absurd (hp1 key3 _ hk3).2 (lt_irrefl _)
      · by_cases h3 : key3 = key
        · subst h3
          rw [Function.update_same] at hk3
          rw [Function.update_noteq h2] at hk2
          obtain rfl : s.nextId = r := Option.some.inj hk3
          exact absurd (hp1 key2 _ hk2).2 (lt_irrefl _)
        · rw [Function.update_noteq h2] at hk2
          rw [Function.update_noteq h3] at hk3
          exact hinj key2 key3 r hk2 hk3
  | some rr =>
    have hrr := hp1 key rr hp
    refine ⟨?_, ?_, ?_⟩
    · intro key2 r hk
      simp only [newRequestRun, hp] at hk ⊢
      rw [settleReq_pendingKey] at hk
      rw [settleReq_nextId] at hk ⊢
      by_cases hkey : key2 = key
      · subst hkey
        rw [Function.update_same] at hk
        obtain rfl : s.nextId = r := Option.some.inj hk
        refine ⟨?_, Nat.lt_succ_self _⟩
        have hne : s.nextId ≠ rr := by omega
        rw [settleReq_settled_other s rr _ _ hne]
        exact hfresh _ (le_refl _)
      · rw [Function.update_noteq hkey] at hk
        have h2 := hp1 key2 r hk
        have hne : r ≠ rr := fun he => hkey (hinj key2 key r hk (he ▸ hp))
        refine ⟨?_, Nat.lt_succ_of_lt h2.2⟩
        rw [settleReq_settled_other s rr _ r hne]
        exact h2.1
    · intro r hr
      simp only [newRequestRun, hp] at hr ⊢
      rw [settleReq_nextId] at hr
      have hne : r ≠ rr := by omega
      rw [settleReq_settled_other s rr _ r hne]
      exact hfresh r (by omega)
    · intro key2 key3 r hk2 hk3
      simp only [newRequestRun, hp] at hk2 hk3
      rw [settleReq_pendingKey] at hk2 hk3
      rw [settleReq_nextId] at hk2 hk3
      by_cases h2 : key2 = key
      · by_cases h3 : key3 = key
        · subst h2; subst h3; rfl
        · subst h2
          rw [Function.update_same] at hk2
          rw [Function.update_noteq h3] at hk3
          obtain rfl : s.nextId = r := Option.some.inj hk2
          exact absurd (hp1 key3 _ hk3).2 (lt_irrefl _)
      · by_cases h3 : key3 = key
        · subst h3
          rw [Function.update_same] at hk3
          rw [Function.update_noteq h2] at hk2
          obtain rfl : s.nextId = r := Option.some.inj hk3
          exact absurd (hp1 key2 _ hk2).2 (lt_irrefl _)
        · rw [Function.update_noteq h2] at hk2
          rw [Function.update_noteq h3] at hk3
          exact hinj key2 key3 r hk2 hk3

theorem bstep_inv {s s2 : BridgeState} (h : BStep s s2) (hi : BInv s) : BInv s2 := by
  cases h with
  | newReq key => exact newRequestRun_inv s key hi
  | resolveMsg key v => rw [resolveRun_eq_replyRun]; exact replyRun_inv s key _ hi
  | rejectMsg key msg => rw [rejectRun_eq_replyRun]; exact replyRun_inv s key _ hi
  | timerFire key r hp => rw [timeoutRun_eq_replyRun s key r hp]; exact replyRun_inv s key _ hi

theorem breach_inv {s : BridgeState} (h : BReach s) : BInv s := by
  induction h with
  | init =>
    refine ⟨fun key r hk => ?_, fun r _ => rfl, fun key2 key3 r hk2 _ => ?_⟩
    · cases hk
    · cases hk2
  | step _ hstep ih => exact bstep_inv hstep ih

theorem replyRun_settled_mono (s : BridgeState) (key : String) (o : Outcome) (r : Nat)
    (o2 : Outcome) (hs : s.settled r = some o2) : (replyRun s key o).settled r = some o2 := by
  unfold replyRun
  cases hp : s.pendingKey key with
  | none => exact hs
  | some rr => exact settleReq_settled_mono s rr o r o2 hs

theorem bstep_settled_mono {s s2 : BridgeState} (h : BStep s s2) (r : Nat) (o : Outcome)
    (hs : s.settled r = some o) : s2.settled r = some o := by
  cases h with
  | newReq key =>
    simp only [newRequestRun]
    cases hp : s.pendingKey key with
    | none => simp only [hp]; exact hs
    | some rr => simp only [hp]; exact settleReq_settled_mono s rr _ r o hs
  | resolveMsg key v =>
    rw [resolveRun_eq_replyRun]; exact replyRun_settled_mono s key _ r o hs
  | rejectMsg key msg =>
    rw [rejectRun_eq_replyRun]; exact replyRun_settled_mono s key _ r o hs
  | timerFire key rr hp =>
    rw [timeoutRun_eq_replyRun s key rr hp]; exact replyRun_settled_mono s key _ r o hs

theorem bsteps_settled_mono {s s2 : BridgeState} (h : BSteps s s2) (r : Nat) (o : Outcome)
    (hs : s.settled r = some o) : s2.settled r = some o := by
  induction h with
  | refl => exact hs
  | tail _ hstep ih => exact bstep_settled_mono hstep r o ih

-- ─── C5 ─────────────────────────────────────────────────────────────

/-- C5: in every reachable correlator state, the (at most one) pending
request a key maps to is still unsettled; issuing a new request for a key
with a pending entry settles the older request as rejected-superseded in the
resulting state; and a settled request keeps its outcome through every later
step — a superseded request is never resolved afterwards, and a reply
arriving for it is a no-op, since replies only touch the request currently
in the map. -/
theorem c5_supersession (s : BridgeState) (key : String) (r : Nat) (h : BReach s) :
    (s.pendingKey key = some r → s.settled r = none) ∧
    (s.pendingKey key = some r →
      (newRequestRun s key).settled r = some Outcome.rejectedSuperseded) ∧
    (∀ (s2 : BridgeState) (o : Outcome), s.settled r = some o → BSteps s s2 →
      s2.settled r = some o) := by
  have hi := breach_inv h
  refine ⟨fun hp => (hi.1 key r hp).1, fun hp => ?_, fun s2 o hs hsteps =>
    bsteps_settled_mono hsteps r o hs⟩
  simp only [newRequestRun, hp]
  exact settleReq_settled_self s r _ ((hi.1 key r hp).1)

/-- Witness for C5: two same-key requests from the initial state; the first
(request id 0) ends rejected-superseded. -/
theorem c5_supersession_witness :
    (newRequestRun bridgeInit "a").pendingKey "a" = some 0 ∧
    (newRequestRun (newRequestRun bridgeInit "a") "a").settled 0
      = some Outcome.rejectedSuperseded := by
  have hreach : BReach (newRequestRun bridgeInit "a") :=
    BReach.step BReach.init (BStep.newReq bridgeInit "a")
  have hp : (newRequestRun bridgeInit "a").pendingKey "a" = some 0 := by
    simp [newRequestRun, bridgeInit]
  exact ⟨hp, (c5_supersession (newRequestRun bridgeInit "a") "a" 0 hreach).2.1 hp⟩

-- ─── Publish concurrency semaphore (part_005 lines 111-370) ─────────

/-- Per-item status, as shown in the queue UI (types/index ArtboardStatus). -/
inductive ItemStatus where
  | queued
  | extracting
  | exporting
  | uploading
  | done
  | failed
deriving DecidableEq, Repr

/-- Where the control of one queue task sits. waiting: inside
semaphore.acquire, not yet granted. ready: slot granted, before the initial
abort check (status not yet set). extracting/exporting/uploading: the status
was set and the corresponding await is outstanding. extractDone/exportDone:
the await resolved, before the following abort check. donePh/failedPh: the
task finished and released its slot in the finally block. abortedPh st: the
task returned early at an abort check, with its status left at st. -/
inductive TaskPhase where
  | waiting
  | ready
  | extracting
  | extractDone
  | exporting
  | exportDone
  | uploading
  | donePh
  | failedPh
  | abortedPh (last : ItemStatus)
deriving DecidableEq, Repr

/-- The status setQueueItemStatus has last stored for a task in this phase. -/
def phaseStatus : TaskPhase → ItemStatus
  | .waiting => .queued
  | .ready => .queued
  | .extracting => .extracting
  | .extractDone => .extracting
  | .exporting => .exporting
  | .exportDone => .exporting
  | .uploading => .uploading
  | .donePh => .done
  | .failedPh => .failed
  | .abortedPh st => st

def inflightStatus : ItemStatus → Bool
  | .extracting => true
  | .exporting => true
  | .uploading => true
  | _ => false

/-- Phases in which the task holds a semaphore slot. -/
def holdsSlot : TaskPhase → Bool
  | .ready => true
  | .extracting => true
  | .extractDone => true
  | .exporting => true
  | .exportDone => true
  | .uploading => true
  | _ => false

def isReady : TaskPhase → Bool
  | .ready => true
  | _ => false

def isAbortedPh : TaskPhase → Bool
  | .abortedPh _ => true
  | _ => false

def inflightPh (p : TaskPhase) : Bool := inflightStatus (phaseStatus p)

/-- The whole pipeline state: task phases by index, the semaphore counter
(an integer: release decrements unconditionally), the semaphore FIFO of
waiting acquirers, the cancellation flag, and the configured limit. -/
structure SemState where
  phases : List TaskPhase
  active : Int
  waitQ : List Nat
  aborted : Bool
  limit : Nat

/-- The release closure of Semaphore.acquire (lines 352-369): decrement
active, then hand the slot to the first waiter when one exists — its
tryAcquire sees active < limit, increments active and resolves, making the
waiter a slot holder (ready); otherwise the waiter re-queues. -/
def semRelease (s : SemState) : SemState :=
  let a := s.active - 1
  match s.waitQ with
  | [] => { s with active := a }
  | t :: rest =>
    if a < (s.limit : Int) then
      { s with active := a + 1, waitQ := rest, phases := s.phases.set t .ready }
    else
      { s with active := a, waitQ := rest ++ [t] }

def setPhase (s : SemState) (i : Nat) (p : TaskPhase) : SemState :=
  { s with phases := s.phases.set i p }

/-- CONCURRENCY (line 114). -/
def CONCURRENCY : Nat := 3

/-- The state right after toUpload.map has synchronously called acquire for
every task: the first min(3, n) tasks hold slots (their then-continuations
scheduled), the rest queue FIFO. -/
def initState (n : Nat) : SemState :=
  let g := min CONCURRENCY n
  { phases := List.replicate g TaskPhase.ready ++ List.replicate (n - g) .waiting,
    active := (g : Int),
    waitQ := List.range' g (n - g),
    aborted := false,
    limit := CONCURRENCY }

/-- One asynchronous scheduling step of the pipeline of part_005 lines
208-276. The two mid-stage abort checks (lines 225-228 and 235-238) sit
inside the try block, so their release() is followed by the finally release:
those transitions release the slot twice. -/
inductive SemStep : SemState → SemState → Prop where
  | setAbort (s : SemState) : SemStep s { s with aborted := true }
  | startAborted (s : SemState) (i : Nat) :
      s.phases[i]? = some .ready → s.aborted = true →
      SemStep s (semRelease (setPhase s i (.abortedPh .queued)))
  | startOk (s : SemState) (i : Nat) :
      s.phases[i]? = some .ready → s.aborted = false →
      SemStep s (setPhase s i .extracting)
  | dataOk (s : SemState) (i : Nat) :
      s.phases[i]? = some .extracting →
      SemStep s (setPhase s i .extractDone)
  | dataFail (s : SemState) (i : Nat) :
      s.phases[i]? = some .extracting →
      SemStep s (semRelease (setPhase s i .failedPh))
  | abortAfterData (s : SemState) (i : Nat) :
      s.phases[i]? = some .extractDone → s.aborted = true →
      SemStep s (semRelease (semRelease (setPhase s i (.abortedPh .extracting))))
  | toExport (s : SemState) (i : Nat) :
      s.phases[i]? = some .extractDone → s.aborted = false →
      SemStep s (setPhase s i .exporting)
  | exportOk (s : SemState) (i : Nat) :
      s.phases[i]? = some .exporting →
      SemStep s (setPhase s i .exportDone)
  | exportFail (s : SemState) (i : Nat) :
      s.phases[i]? = some .exporting →
      SemStep s (semRelease (setPhase s i .failedPh))
  | abortAfterExport (s : SemState) (i : Nat) :
      s.phases[i]? = some .exportDone → s.aborted = true →
      SemStep s (semRelease (semRelease (setPhase s i (.abortedPh .exporting))))
  | toUpload (s : SemState) (i : Nat) :
      s.phases[i]? = some .exportDone → s.aborted = false →
      SemStep s (setPhase s i .uploading)
  | uploadOk (s : SemState) (i : Nat) :
      s.phases[i]? = some .uploading →
      SemStep s (semRelease (setPhase s i .donePh))
  | uploadFail (s : SemState) (i : Nat) :
      s.phases[i]? = some .uploading →
      SemStep s (semRelease (setPhase s i .failedPh))

inductive SemReach (n : Nat) : SemState → Prop where
  | init : SemReach n (initState n)
  | step {s s2 : SemState} : SemReach n s → SemStep s s2 → SemReach n s2

def slotCount (s : SemState) : Nat := s.phases.countP holdsSlot

def inflightCount (s : SemState) : Nat := s.phases.countP inflightPh

def readyCount (s : SemState) : Nat := s.phases.countP isReady

/-- The inductive invariant: the limit is the constant 3; the semaphore
counter never exceeds it; the number of items with an in-flight status never
exceeds it; and before cancellation, no task has taken an abort exit, the
counter equals the number of slot holders, slot holders stay within the
limit, the slot holders split exactly into in-flight tasks and granted-but-
unstarted tasks, and the wait queue is a duplicate-free list of tasks in the
waiting phase. -/
def SemInv (s : SemState) : Prop :=
  s.limit = CONCURRENCY ∧
  s.active ≤ (s.limit : Int) ∧
  inflightCount s ≤ s.limit ∧
  (s.aborted = false →
    (∀ p ∈ s.phases, isAbortedPh p = false) ∧
    s.active = (slotCount s : Int) ∧
    slotCount s ≤ s.limit ∧
    inflightCount s + readyCount s = slotCount s ∧
    (∀ t ∈ s.waitQ, s.phases[t]? = some .waiting) ∧
    s.waitQ.Nodup)

-- ─── Counting helper lemmas ─────────────────────────────────────────

theorem countP_set_eq {α : Type} (p : α → Bool) : ∀ (l : List α) (i : Nat) (a b : α),
    l[i]? = some b →
    (l.set i a).countP p + (if p b then 1 else 0) = l.countP p + (if p a then 1 else 0)
  | [], i, a, b => by intro h; cases h
  | x :: xs, 0, a, b => by
    intro h
    simp only [List.getElem?_cons_zero] at h
    obtain rfl : x = b := Option.some.inj h
    simp only [List.set_cons_zero, List.countP_cons]
    omega
  | x :: xs, i + 1, a, b => by
    intro h
    simp only [List.getElem?_cons_succ] at h
    have ih := countP_set_eq p xs i a b h
    simp only [List.set_cons_succ, List.countP_cons]
    omega

theorem countP_set_le {α : Type} (p : α → Bool) (l : List α) (i : Nat) (a : α)
    (h : p a = false) : (l.set i a).countP p ≤ l.countP p := by
  cases hl : l[i]? with
  | none =>
    rw [List.set_eq_of_length_le (List.getElem?_eq_none_iff.mp hl)]
  | some b =>
    have heq := countP_set_eq p l i a b hl
    rw [h] at heq
    cases hb : p b <;> simp [hb] at heq <;> omega

theorem countP_one_le {α : Type} (p : α → Bool) (l : List α) (i : Nat) (b : α)
    (h : l[i]? = some b) (hb : p b = true) : 1 ≤ l.countP p :=
  List.countP_pos_iff.mpr ⟨b, List.getElem?_mem h, hb⟩

theorem count_partition : ∀ (l : List TaskPhase),
    (∀ p ∈ l, isAbortedPh p = false) →
    l.countP inflightPh + l.countP isReady = l.countP holdsSlot
  | [] => fun _ => rfl
  | x :: xs => fun h => by
    have hx := h x (List.mem_cons_self _ _)
    have ih := count_partition xs (fun p hp => h p (List.mem_cons_of_mem _ hp))
    simp only [List.countP_cons]
    cases x <;>
      simp_all [inflightPh, inflightStatus, phaseStatus, isReady, holdsSlot, isAbortedPh] <;>
      omega

theorem countP_set_eq_of_same {α : Type} (p : α → Bool) (l : List α) (i : Nat) (a b : α)
    (h : l[i]? = some b) (hw : p a = p b) : (l.set i a).countP p = l.countP p := by
  have heq := countP_set_eq p l i a b h
  rw [hw] at heq
  cases hpb : p b <;> simp [hpb] at heq <;> omega

theorem countP_replicate {α : Type} (p : α → Bool) (a : α) : ∀ (n : Nat),
    (List.replicate n a).countP p = if p a then n else 0
  | 0 => by simp
  | n + 1 => by
    rw [List.replicate_succ, List.countP_cons, countP_replicate p a n]
    cases hp : p a <;> simp [hp]

-- ─── Structural facts about semRelease and setPhase ─────────────────

theorem semRelease_limit (s : SemState) : (semRelease s).limit = s.limit := by
  unfold semRelease
  cases hw : s.waitQ with
  | nil => rfl
  | cons t rest => simp only []; split <;> rfl

theorem semRelease_aborted (s : SemState) : (semRelease s).aborted = s.aborted := by
  unfold semRelease
  cases hw : s.waitQ with
  | nil => rfl
  | cons t rest => simp only []; split <;> rfl

theorem semRelease_active_le (s : SemState) (h : s.active ≤ (s.limit : Int)) :
    (semRelease s).active ≤ ((semRelease s).limit : Int) := by
  rw [semRelease_limit]
  unfold semRelease
  cases hw : s.waitQ with
  | nil => simp only []; omega
  | cons t rest =>
    simp only []
    split
    · rename_i hguard; simp only []; omega
    · simp only []; omega

theorem semRelease_inflight_le (s : SemState) :
    inflightCount (semRelease s) ≤ inflightCount s := by
  unfold semRelease inflightCount
  cases hw : s.waitQ with
  | nil => exact le_refl _
  | cons t rest =>
    simp only []
    split
    · exact countP_set_le inflightPh s.phases t .ready rfl
    · exact le_refl _

def SemBounds (s : SemState) : Prop :=
  s.limit = CONCURRENCY ∧ s.active ≤ (s.limit : Int) ∧ inflightCount s ≤ s.limit

theorem semRelease_bounds (s : SemState) (h : SemBounds s) : SemBounds (semRelease s) :=
  ⟨by rw [semRelease_limit]; exact h.1,
   semRelease_active_le s h.2.1,
   by rw [semRelease_limit]; exact le_trans (semRelease_inflight_le s) h.2.2⟩

theorem setPhase_bounds (s : SemState) (i : Nat) (p : TaskPhase) (h : SemBounds s)
    (hle : inflightCount (setPhase s i p) ≤ inflightCount s) : SemBounds (setPhase s i p) :=
  ⟨h.1, h.2.1, le_trans hle h.2.2⟩

theorem lt_length_of_getElem? {α : Type} (l : List α) (i : Nat) (b : α)
    (h : l[i]? = some b) : i < l.length := by
  by_contra hle
  rw [List.getElem?_eq_none_iff.mpr (Nat.le_of_not_lt hle)] at h
  cases h

theorem setPhase_waitq (s : SemState) (i : Nat) (a b : TaskPhase)
    (hb : s.phases[i]? = some b) (hbw : b ≠ .waiting)
    (hw : ∀ t ∈ s.waitQ, s.phases[t]? = some .waiting) :
    ∀ t ∈ s.waitQ, (setPhase s i a).phases[t]? = some TaskPhase.waiting := by
  intro t ht
  have hwt := hw t ht
  have hne : i ≠ t := by
    intro he; subst he; rw [hwt] at hb; exact hbw (Option.some.inj hb).symm
  show (s.phases.set i a)[t]? = some .waiting
  rw [List.getElem?_set_ne hne]
  exact hwt

theorem noAborted_set (l : List TaskPhase) (i : Nat) (a : TaskPhase)
    (hall : ∀ p ∈ l, isAbortedPh p = false) (ha : isAbortedPh a = false) :
    ∀ p ∈ l.set i a, isAbortedPh p = false := by
  intro p hp
  rcases List.mem_or_eq_of_mem_set hp with h | rfl
  · exact hall p h
  · exact ha

-- ─── Invariant preservation ─────────────────────────────────────────

theorem inv_of_bounds_aborted (s : SemState) (hbnds : SemBounds s)
    (hab : s.aborted = true) : SemInv s :=
  ⟨hbnds.1, hbnds.2.1, hbnds.2.2, fun h => absurd h (by simp [hab])⟩

theorem bounds_of_inv (s : SemState) (hi : SemInv s) : SemBounds s :=
  ⟨hi.1, hi.2.1, hi.2.2.1⟩

/-- A phase swap whose contributions to every count agree preserves the
invariant (covers the await-resolution and stage-advance steps). -/
theorem inv_swap (s : SemState) (i : Nat) (a b : TaskPhase) (hb : s.phases[i]? = some b)
    (hs : holdsSlot a = holdsSlot b) (hf : inflightPh a = inflightPh b)
    (hr : isReady a = isReady b) (ha : isAbortedPh a = false) (hbw : b ≠ .waiting)
    (hi : SemInv s) : SemInv (setPhase s i a) := by
  obtain ⟨h1, h2, h3, h4⟩ := hi
  have hfc : inflightCount (setPhase s i a) = inflightCount s :=
    countP_set_eq_of_same inflightPh s.phases i a b hb hf
  refine ⟨h1, h2, by rw [hfc]; exact h3, ?_⟩
  intro hab
  obtain ⟨hnoab, hact, hslot, heq, hwq, hnd⟩ := h4 hab
  have hsc : slotCount (setPhase s i a) = slotCount s :=
    countP_set_eq_of_same holdsSlot s.phases i a b hb hs
  have hrc : readyCount (setPhase s i a) = readyCount s :=
    countP_set_eq_of_same isReady s.phases i a b hb hr
  exact ⟨noAborted_set s.phases i a hnoab ha,
    by rw [hsc]; exact hact,
    by rw [hsc]; exact hslot,
    by rw [hsc, hfc, hrc]; exact heq,
    setPhase_waitq s i a b hb hbw hwq,
    hnd⟩

/-- Granting a slot holder its first stage (ready → extracting) preserves
the invariant: one granted-unstarted task becomes in-flight. -/
theorem inv_startOk (s : SemState) (i : Nat) (hb : s.phases[i]? = some .ready)
    (habF : s.aborted = false) (hi : SemInv s) : SemInv (setPhase s i .extracting) := by
  obtain ⟨h1, h2, h3, h4⟩ := hi
  obtain ⟨hnoab, hact, hslot, heq, hwq, hnd⟩ := h4 habF
  have hfc : inflightCount (setPhase s i .extracting) = inflightCount s + 1 := by
    have heq2 := countP_set_eq inflightPh s.phases i .extracting .ready hb
    simpa [inflightPh, phaseStatus, inflightStatus] using heq2
  have hrc : readyCount (setPhase s i .extracting) + 1 = readyCount s := by
    have heq2 := countP_set_eq isReady s.phases i .extracting .ready hb
    simpa [isReady] using heq2
  have hsc : slotCount (setPhase s i .extracting) = slotCount s :=
    countP_set_eq_of_same holdsSlot s.phases i .extracting .ready hb rfl
  have hready1 : 1 ≤ readyCount s := countP_one_le isReady s.phases i .ready hb rfl
  refine ⟨h1, h2, ?_, ?_⟩
  · show inflightCount (setPhase s i .extracting) ≤ s.limit
    omega
  intro _
  refine ⟨noAborted_set s.phases i _ hnoab rfl, ?_, ?_, ?_,
    setPhase_waitq s i .extracting .ready hb (by intro h; cases h) hwq, hnd⟩
  · rw [hsc]; exact hact
  · rw [hsc]; exact hslot
  · omega

/-- Releasing one slot from a state whose counter sits one above its slot
count restores the invariant (the caller has just taken a phase out of the
slot-holding set and is performing the release that goes with it). -/
theorem semRelease_inv_afterDrop (s : SemState)
    (h1 : s.limit = CONCURRENCY)
    (hnoab : ∀ p ∈ s.phases, isAbortedPh p = false)
    (hact : s.active = (slotCount s : Int) + 1)
    (hslot : slotCount s + 1 ≤ s.limit)
    (heq : inflightCount s + readyCount s = slotCount s)
    (hwq : ∀ t ∈ s.waitQ, s.phases[t]? = some .waiting)
    (hnd : s.waitQ.Nodup) : SemInv (semRelease s) := by
  unfold semRelease
  cases hwE : s.waitQ with
  | nil =>
    refine ⟨h1, ?_, ?_, ?_⟩
    · show s.active - 1 ≤ (s.limit : Int)
      omega
    · show inflightCount s ≤ s.limit
      omega
    intro _
    refine ⟨hnoab, ?_, ?_, heq, ?_, List.nodup_nil⟩
    · show s.active - 1 = (slotCount s : Int)
      omega
    · show slotCount s ≤ s.limit
      omega
    · intro t ht
      exact absurd (show t ∈ ([] : List Nat) from ht) (by simp)
  | cons t rest =>
    have hguard : s.active - 1 < (s.limit : Int) := by omega
    show SemInv (if s.active - 1 < (s.limit : Int) then
        { s with phases := s.phases.set t .ready, active := s.active - 1 + 1, waitQ := rest }
      else { s with active := s.active - 1, waitQ := rest ++ [t] })
    rw [if_pos hguard]
    have hwt : s.phases[t]? = some .waiting :=
      hwq t (by rw [hwE]; exact List.mem_cons_self _ _)
    have hnd2 : t ∉ rest ∧ rest.Nodup := by
      rw [hwE] at hnd; exact List.nodup_cons.mp hnd
    have hsc : (s.phases.set t .ready).countP holdsSlot = slotCount s + 1 := by
      have heq2 := countP_set_eq holdsSlot s.phases t .ready .waiting hwt
      simpa [holdsSlot] using heq2
    have hfc : (s.phases.set t .ready).countP inflightPh = inflightCount s :=
      countP_set_eq_of_same inflightPh s.phases t .ready .waiting hwt rfl
    have hrc : (s.phases.set t .ready).countP isReady = readyCount s + 1 := by
      have heq2 := countP_set_eq isReady s.phases t .ready .waiting hwt
      simpa [isReady] using heq2
    refine ⟨h1, ?_, ?_, ?_⟩
    · show s.active - 1 + 1 ≤ (s.limit : Int)
      omega
    · show (s.phases.set t .ready).countP inflightPh ≤ s.limit
      omega
    · intro _
      refine ⟨noAborted_set s.phases t .ready hnoab rfl, ?_, ?_, ?_, ?_, hnd2.2⟩
      · show s.active - 1 + 1 = ((s.phases.set t .ready).countP holdsSlot : Int)
        omega
      · show (s.phases.set t .ready).countP holdsSlot ≤ s.limit
        omega
      · show (s.phases.set t .ready).countP inflightPh
            + (s.phases.set t .ready).countP isReady
            = (s.phases.set t .ready).countP holdsSlot
        omega
      · intro u hu
        have hut : u ≠ t := fun he => hnd2.1 (he ▸ hu)
        show (s.phases.set t .ready)[u]? = some .waiting
        rw [List.getElem?_set_ne (fun he => hut he.symm)]
        exact hwq u (by rw [hwE]; exact List.mem_cons_of_mem _ hu)

/-- A finishing step: the task at i leaves the slot-holding, in-flight set
for a terminal phase and releases its slot once. -/
theorem inv_finish (s : SemState) (i : Nat) (a b : TaskPhase) (hb : s.phases[i]? = some b)
    (hslotb : holdsSlot b = true) (hinfb : inflightPh b = true)
    (hsa : holdsSlot a = false) (hfa : inflightPh a = false) (hra : isReady a = false)
    (haa : isAbortedPh a = false) (hrb : isReady b = false) (hbw : b ≠ .waiting)
    (hi : SemInv s) : SemInv (semRelease (setPhase s i a)) := by
  cases hab : s.aborted with
  | true =>
    have hle : inflightCount (setPhase s i a) ≤ inflightCount s :=
      countP_set_le inflightPh s.phases i a hfa
    refine inv_of_bounds_aborted _
      (semRelease_bounds _ (setPhase_bounds s i a (bounds_of_inv s hi) hle)) ?_
    rw [semRelease_aborted]
    exact hab
  | false =>
    obtain ⟨h1, h2, h3, h4⟩ := hi
    obtain ⟨hnoab, hact, hslot, heq, hwq, hnd⟩ := h4 hab
    have hsc1 : slotCount (setPhase s i a) + 1 = slotCount s := by
      have heq2 := countP_set_eq holdsSlot s.phases i a b hb
      simpa [hsa, hslotb] using heq2
    have hfc1 : inflightCount (setPhase s i a) + 1 = inflightCount s := by
      have heq2 := countP_set_eq inflightPh s.phases i a b hb
      simpa [hfa, hinfb] using heq2
    have hrc1 : readyCount (setPhase s i a) = readyCount s :=
      countP_set_eq_of_same isReady s.phases i a b hb (hra.trans hrb.symm)
    exact semRelease_inv_afterDrop (setPhase s i a) h1
      (noAborted_set s.phases i a hnoab haa)
      (by show s.active = (slotCount (setPhase s i a) : Int) + 1; omega)
      (by show slotCount (setPhase s i a) + 1 ≤ s.limit; omega)
      (by show inflightCount (setPhase s i a) + readyCount (setPhase s i a)
            = slotCount (setPhase s i a); omega)
      (setPhase_waitq s i a b hb hbw hwq)
      hnd

/-- An abort-exit step (single or double release) preserves the invariant:
cancellation is already set, so only the global bounds matter. -/
theorem inv_abortExit1 (s : SemState) (i : Nat) (a : TaskPhase) (hab : s.aborted = true)
    (hfa : inflightCount (setPhase s i a) ≤ inflightCount s) (hi : SemInv s) :
    SemInv (semRelease (setPhase s i a)) := by
  refine inv_of_bounds_aborted _
    (semRelease_bounds _ (setPhase_bounds s i a (bounds_of_inv s hi) hfa)) ?_
  rw [semRelease_aborted]
  exact hab

theorem inv_abortExit2 (s : SemState) (i : Nat) (a : TaskPhase) (hab : s.aborted = true)
    (hfa : inflightCount (setPhase s i a) ≤ inflightCount s) (hi : SemInv s) :
    SemInv (semRelease (semRelease (setPhase s i a))) := by
  refine inv_of_bounds_aborted _
    (semRelease_bounds _
      (semRelease_bounds _ (setPhase_bounds s i a (bounds_of_inv s hi) hfa))) ?_
  rw [semRelease_aborted, semRelease_aborted]
  exact hab

theorem semStep_inv {s s2 : SemState} (h : SemStep s s2) (hi : SemInv s) : SemInv s2 := by
  cases h with
  | setAbort =>
    exact inv_of_bounds_aborted _ (bounds_of_inv s hi) rfl
  | startAborted i hb hab =>
    exact inv_abortExit1 s i _ hab
      (countP_set_le inflightPh s.phases i _ rfl) hi
  | startOk i hb habF => exact inv_startOk s i hb habF hi
  | dataOk i hb =>
    exact inv_swap s i .extractDone .extracting hb rfl rfl rfl rfl
      (by intro h; cases h) hi
  | dataFail i hb =>
    exact inv_finish s i .failedPh .extracting hb rfl rfl rfl rfl rfl rfl rfl
      (by intro h; cases h) hi
  | abortAfterData i hb hab =>
    exact inv_abortExit2 s i _ hab
      (le_of_eq (countP_set_eq_of_same inflightPh s.phases i _ _ hb rfl)) hi
  | toExport i hb habF =>
    exact inv_swap s i .exporting .extractDone hb rfl rfl rfl rfl
      (by intro h; cases h) hi
  | exportOk i hb =>
    exact inv_swap s i .exportDone .exporting hb rfl rfl rfl rfl
      (by intro h; cases h) hi
  | exportFail i hb =>
    exact inv_finish s i .failedPh .exporting hb rfl rfl rfl rfl rfl rfl rfl
      (by intro h; cases h) hi
  | abortAfterExport i hb hab =>
    exact inv_abortExit2 s i _ hab
      (le_of_eq (countP_set_eq_of_same inflightPh s.phases i _ _ hb rfl)) hi
  | toUpload i hb habF =>
    exact inv_swap s i .uploading .exportDone hb rfl rfl rfl rfl
      (by intro h; cases h) hi
  | uploadOk i hb =>
    exact inv_finish s i .donePh .uploading hb rfl rfl rfl rfl rfl rfl rfl
      (by intro h; cases h) hi
  | uploadFail i hb =>
    exact inv_finish s i .failedPh .uploading hb rfl rfl rfl rfl rfl rfl rfl
      (by intro h; cases h) hi

/-- The state produced by the synchronous queue kickoff satisfies the
invariant. -/
theorem inv_init (n : Nat) : SemInv (initState n) := by
  have hg : min CONCURRENCY n ≤ CONCURRENCY := Nat.min_le_left _ _
  have hslot : slotCount (initState n) = min CONCURRENCY n := by
    show (List.replicate (min CONCURRENCY n) TaskPhase.ready
        ++ List.replicate (n - min CONCURRENCY n) TaskPhase.waiting).countP holdsSlot
        = min CONCURRENCY n
    rw [List.countP_append, countP_replicate, countP_replicate]
    simp [holdsSlot]
  have hinf : inflightCount (initState n) = 0 := by
    show (List.replicate (min CONCURRENCY n) TaskPhase.ready
        ++ List.replicate (n - min CONCURRENCY n) TaskPhase.waiting).countP inflightPh
        = 0
    rw [List.countP_append, countP_replicate, countP_replicate]
    simp [inflightPh, inflightStatus, phaseStatus]
  have hready : readyCount (initState n) = min CONCURRENCY n := by
    show (List.replicate (min CONCURRENCY n) TaskPhase.ready
        ++ List.replicate (n - min CONCURRENCY n) TaskPhase.waiting).countP isReady
        = min CONCURRENCY n
    rw [List.countP_append, countP_replicate, countP_replicate]
    simp [isReady]
  refine ⟨rfl, ?_, ?_, ?_⟩
  · show ((min CONCURRENCY n : Nat) : Int) ≤ ((CONCURRENCY : Nat) : Int)
    exact_mod_cast hg
  · show inflightCount (initState n) ≤ CONCURRENCY
    rw [hinf]
    exact Nat.zero_le _
  · intro _
    refine ⟨?_, ?_, ?_, ?_, ?_, ?_⟩
    · intro p hp
      have hp2 : p ∈ List.replicate (min CONCURRENCY n) TaskPhase.ready
          ++ List.replicate (n - min CONCURRENCY n) TaskPhase.waiting := hp
      rcases List.mem_append.mp hp2 with h | h
      · rw [List.eq_of_mem_replicate h]; rfl
      · rw [List.eq_of_mem_replicate h]; rfl
    · show ((min CONCURRENCY n : Nat) : Int) = (slotCount (initState n) : Int)
      rw [hslot]
    · rw [hslot]
      exact hg
    · rw [hinf, hready, hslot]
      omega
    · intro t ht
      have ht2 : t ∈ List.range' (min CONCURRENCY n) (n - min CONCURRENCY n) := ht
      have hb := List.mem_range'_1.mp ht2
      show (List.replicate (min CONCURRENCY n) TaskPhase.ready
          ++ List.replicate (n - min CONCURRENCY n) TaskPhase.waiting)[t]?
          = some TaskPhase.waiting
      rw [List.getElem?_append_right (by simpa using hb.1), List.getElem?_replicate,
        if_pos (by simp only [List.length_replicate]; omega)]
    · show (List.range' (min CONCURRENCY n) (n - min CONCURRENCY n)).Nodup
      exact List.nodup_range' _ _

/-- Every reachable scheduler state satisfies the invariant. -/
theorem semReach_inv {n : Nat} {s : SemState} (h : SemReach n s) : SemInv s := by
  induction h with
  | init => exact inv_init n
  | step hr hst ih => exact semStep_inv hst ih

/-- C4 counterexample: the claimed bound that the semaphore active count
stays between 0 and the limit in every reachable state fails once
cancellation fires between stages. The mid-stage abort check releases the
slot inside the try block and the finally-equivalent block releases it
again, so already with a single-item queue the scheduler reaches a state
whose active counter is negative. -/
theorem c4_active_underflow : ∃ s : SemState, SemReach 1 s ∧ s.active < 0 := by
  refine ⟨_, SemReach.step (SemReach.step (SemReach.step (SemReach.step SemReach.init
    (SemStep.startOk _ 0 rfl rfl)) (SemStep.dataOk _ 0 rfl)) (SemStep.setAbort _))
    (SemStep.abortAfterData _ 0 rfl rfl), ?_⟩
  decide

/-- C4 (amended): in every reachable scheduler state the number of items in
an in-flight phase (extracting, exporting or uploading) never exceeds the
concurrency limit 3, the active counter never exceeds 3, and before
cancellation is requested the active counter is also non-negative. -/
theorem c4_inflight_bounded {n : Nat} {s : SemState} (h : SemReach n s) :
    inflightCount s ≤ CONCURRENCY ∧ s.active ≤ (CONCURRENCY : Int) ∧
      (s.aborted = false → 0 ≤ s.active) := by
  obtain ⟨h1, h2, h3, h4⟩ := semReach_inv h
  refine ⟨h1 ▸ h3, h1 ▸ h2, ?_⟩
  intro hab
  obtain ⟨-, hact, -, -, -, -⟩ := h4 hab
  rw [hact]
  exact Int.natCast_nonneg _

/-- C4 witness: the amended bounds instantiated at the initial state of a
five-item queue. -/
theorem c4_inflight_bounded_witness :
    inflightCount (initState 5) ≤ CONCURRENCY ∧
      (initState 5).active ≤ (CONCURRENCY : Int) ∧
      ((initState 5).aborted = false → 0 ≤ (initState 5).active) :=
  c4_inflight_bounded SemReach.init
